import Mathlib

/-!
Verification development for the ai_proxy request-dispatch engine.

The JavaScript sources are shallowly embedded: JSON values become the
inductive type `J`, JS objects become association lists that keep insertion
order (mirroring JS object key order), and each verified function is a
computable Lean definition translated line by line from its source file.
Randomness (`crypto.randomBytes` fresh identifiers) is modelled by a
deterministic fresh-name counter; none of the verified properties depend on
the actual random content.
-/

/-- JSON values, the wire data model of the proxy.  Numbers are modelled as
integers: every numeric field the verified code inspects is integral. -/
inductive J where
  | null
  | bool (b : Bool)
  | num (n : Int)
  | str (s : String)
  | arr (elems : List J)
  | obj (fields : List (String × J))
deriving BEq, Repr

/-- JS truthiness of a JSON value (`undefined` is modelled as `Option.none`
at the use sites). -/
def jTruthy : J → Bool
  | .null => false
  | .bool b => b
  | .num n => n != 0
  | .str s => s != ""
  | .arr _ => true
  | .obj _ => true

/-- Truthiness of a possibly-absent value (`none` = JS `undefined`). -/
def jTruthyOpt : Option J → Bool
  | none => false
  | some v => jTruthy v

/-- Whether one key of a JS object equals `k`. -/
def hasKey (fs : List (String × J)) (k : String) : Bool :=
  fs.any (fun kv => kv.1 == k)

/-- Lookup of key `k` (first occurrence) in a JS object. -/
def getKey (fs : List (String × J)) (k : String) : Option J :=
  (fs.find? (fun kv => kv.1 == k)).map (·.2)

/-- JS assignment `o[k] = v`: replaces the value in place when the key
exists (keeping its position, as JS objects do) and appends otherwise. -/
def setKey (fs : List (String × J)) (k : String) (v : J) : List (String × J) :=
  if hasKey fs k then fs.map (fun kv => if kv.1 == k then (k, v) else kv)
  else fs ++ [(k, v)]

/-- JS `delete o[k]`. -/
def delKey (fs : List (String × J)) (k : String) : List (String × J) :=
  fs.filter (fun kv => kv.1 != k)

/-- Build a JS object from an entry list by repeated assignment (later
entries win, as in object spread / `Object.assign`). -/
def objFromEntries (l : List (String × J)) : List (String × J) :=
  l.foldl (fun acc kv => setKey acc kv.1 kv.2) []

/-- JS property access `v[k]` for a string key: only objects carry the
(string-keyed, non-index) properties the sources read. -/
def jGet : J → String → Option J
  | .obj fs, k => getKey fs k
  | _, _ => none

/-- Own enumerable entries of a value: `Object.entries`, object spread and
`Object.assign` sources. Arrays and strings expose index keys. -/
def jOwnEntries : J → List (String × J)
  | .obj fs => fs
  | .arr xs => xs.enum.map (fun p => (toString p.1, p.2))
  | .str s => s.toList.enum.map (fun p => (toString p.1, J.str (String.mk [p.2])))
  | _ => []

/-- Own enumerable keys of a value (`Object.keys`). -/
def jOwnKeys (v : J) : List String :=
  (jOwnEntries v).map (·.1)

mutual

/-- JS `String(v)` coercion, for the values that can reach it. -/
def jToString : J → String
  | .null => "null"
  | .bool b => if b then "true" else "false"
  | .num n => toString n
  | .str s => s
  | .arr xs => String.intercalate "," (jToStringList xs)
  | .obj _ => "[object Object]"

/-- Elementwise `String()` coercion of an array's members. -/
def jToStringList : List J → List String
  | [] => []
  | x :: xs => jToString x :: jToStringList xs

end

/-- Whether a JSON value is a JS primitive (compared by value in a `Set`). -/
def jPrim : J → Bool
  | .obj _ => false
  | .arr _ => false
  | _ => true

/-- SameValueZero equality on JS primitives (values of distinct JS types
are never equal; objects and arrays compare by reference). -/
def jPrimEq : J → J → Bool
  | .null, .null => true
  | .bool a, .bool b => a == b
  | .num a, .num b => a == b
  | .str a, .str b => a == b
  | _, _ => false

/-- JS `[...new Set(l)]`: keeps first occurrences; primitives are compared
by value, objects and arrays by reference (distinct JSON literals are
distinct references, hence never merged). -/
def dedupSetJS (l : List J) : List J :=
  l.foldl (fun acc x => if jPrim x && acc.any (fun y => jPrimEq x y) then acc else acc ++ [x]) []

/-- Minimal JSON string escaping (quote, backslash, newline); other control
characters do not occur in the verified inputs. -/
def escJson (s : String) : String :=
  String.join (s.toList.map (fun c =>
    if c = '"' then "\\\"" else if c = '\\' then "\\\\"
    else if c = '\n' then "\\n" else String.mk [c]))

mutual

/-- JSON serialization, `JSON.stringify` on the values the sources pass. -/
def jStringify : J → String
  | .null => "null"
  | .bool b => if b then "true" else "false"
  | .num n => toString n
  | .str s => "\"" ++ escJson s ++ "\""
  | .arr xs => "[" ++ String.intercalate "," (jStringifyList xs) ++ "]"
  | .obj fs => "\x7b" ++ String.intercalate "," (jStringifyFields fs) ++ "\x7d"

/-- Serialization of an array's members. -/
def jStringifyList : List J → List String
  | [] => []
  | x :: xs => jStringify x :: jStringifyList xs

/-- Serialization of an object's fields. -/
def jStringifyFields : List (String × J) → List String
  | [] => []
  | (k, v) :: fs => ("\"" ++ escJson k ++ "\":" ++ jStringify v) :: jStringifyFields fs

end

/-- Coarse constructor tag of a possibly-absent JSON value; used to tell
concrete values apart in refutation proofs. -/
def jKind : Option J → Nat
  | none => 0
  | some .null => 1
  | some (.bool _) => 2
  | some (.num _) => 3
  | some (.str _) => 4
  | some (.arr _) => 5
  | some (.obj _) => 6

/-! ## Codex dispatch: `parseRetryAfter` and the retry loop (src/unnamed/part_001) -/

/-- Modelled from the spec: `DEFAULT_COOLDOWN_MS` lives in `src/constants.js`,
which is not among the provided sources; the spec fixes the default cooldown
at 60 seconds ("else default cooldown (e.g. 60 s)"). -/
def DEFAULT_COOLDOWN_MS : Int := 60000

/-- The `resets_at` branch of `parseRetryAfter`: `if (err?.resets_at) {
const ms = new Date(err.resets_at * 1000).getTime() - Date.now(); if (ms > 0)
return ms; }`.  Numeric fields are modelled as JSON numbers (JS string-number
coercion of malformed bodies is not modelled). -/
def parseResetsAt (errv : J) (now : Int) : Option Int :=
  match jGet errv "resets_at" with
  | some (J.num t) =>
      if t != 0 then (if t * 1000 - now > 0 then some (t * 1000 - now) else none)
      else none
  | _ => none

/-- The source `const err = body?.error || body;`: reset hints are taken
from the body's `error` member when truthy, else from the body itself. -/
def errSource (body : J) : J :=
  if jTruthyOpt (jGet body "error") then (jGet body "error").getD J.null else body

/-- Body part of `parseRetryAfter`: `const err = body?.error || body;` then
the `resets_in_seconds` / `resets_at` checks.  `bodyParsed` is
`JSON.parse(bodyText)` (`none` when the body text is empty or unparseable,
in which case the catch swallows the error and `null` is returned). -/
def parseBodyReset (bodyParsed : Option J) (now : Int) : Option Int :=
  match bodyParsed with
  | none => none
  | some body =>
      match jGet (errSource body) "resets_in_seconds" with
      | some (J.num n) => if n > 0 then some (n * 1000) else parseResetsAt (errSource body) now
      | _ => parseResetsAt (errSource body) now

/-- `parseRetryAfter(response, bodyText)` from the Codex request handlers.
`retryAfterSecs` models `Number(response.headers.get('retry-after'))`:
`some n` when the header is present and numeric, `none` when it is absent
or NaN (both fall through to the body in the source). -/
def parseRetryAfterFn (retryAfterSecs : Option Int) (bodyParsed : Option J) (now : Int) : Option Int :=
  match retryAfterSecs with
  | some s => if s > 0 then some (s * 1000) else parseBodyReset bodyParsed now
  | none => parseBodyReset bodyParsed now

/-- The 429 call site in `sendCodexMessage` / `sendCodexMessageStream`:
`const retryMs = parseRetryAfter(response, errorText) || DEFAULT_COOLDOWN_MS;`
(`parseRetryAfter` never returns `0`, so `||` is `getD`). -/
def cooldownFor429 (retryAfterSecs : Option Int) (bodyParsed : Option J) (now : Int) : Int :=
  (parseRetryAfterFn retryAfterSecs bodyParsed now).getD DEFAULT_COOLDOWN_MS

/-- Attempt budget `maxAttempts = Math.max(3, accountCount + 1)` of the
Codex dispatch loop. -/
def maxAttemptsFor (accountCount : Nat) : Nat := max 3 (accountCount + 1)

/-- What one iteration of the dispatch loop observes: either
`selectAccount()` returned no account together with `waitMs`, or it
returned an account whose attempt then ends in one of the coded ways. -/
inductive StepOutcome where
  | noAccount (waitMs : Nat)
  | accountOk
  | accountAuthFail
  | accountRateLimited
  | accountUpstreamError
deriving Repr, DecidableEq

/-- Terminal outcomes of `sendCodexMessage` / `sendCodexMessageStream`. -/
inductive DispatchResult where
  | success
  | resourceExhausted (resetMins : Nat)
  | noAccounts
  | upstreamSurfaced
  | failedAfterRetries
  | scriptExhausted
deriving Repr, DecidableEq

/-- The shared retry loop of `sendCodexMessage` and `sendCodexMessageStream`
(the two sources are line-identical in these branches).  The pool is
abstracted into the oracle `script`: the successive outcomes the loop
observes.  Returns the terminal result and the list of `sleep` durations
performed, in order.  `attempt`/`maxAttempts` mirror the `for` loop;
`attempt-- ; continue` is modelled by recursing with the same `attempt`. -/
def codexDispatchLoop (attempt maxAttempts : Nat) : List StepOutcome → DispatchResult × List Nat
  | [] => if attempt ≥ maxAttempts then (.failedAfterRetries, []) else (.scriptExhausted, [])
  | step :: rest =>
      if attempt ≥ maxAttempts then (.failedAfterRetries, [])
      else
        match step with
        | .noAccount w =>
            if w > 0 then
              if w > 60000 then (.resourceExhausted ((w + 60000 - 1) / 60000), [])
              else
                let r := codexDispatchLoop attempt maxAttempts rest
                (r.1, (w + 500) :: r.2)
            else (.noAccounts, [])
        | .accountOk => (.success, [])
        | .accountAuthFail => codexDispatchLoop (attempt + 1) maxAttempts rest
        | .accountRateLimited => codexDispatchLoop (attempt + 1) maxAttempts rest
        | .accountUpstreamError =>
            if attempt + 1 ≥ maxAttempts then (.upstreamSurfaced, [])
            else codexDispatchLoop (attempt + 1) maxAttempts rest

/-! ## Cursor account manager (src/src/cursor/account-manager.js) -/

/-- One Cursor account record as held by `CursorAccountManager`.
`cooldownUntil`/`lastUsed` ISO timestamps are modelled as epoch
milliseconds (`none` = `null`). -/
structure CAccount where
  id : String
  email : Option String := none
  accessToken : Option String := none
  machineId : Option String := none
  ghostMode : Bool := true
  addedAt : Option Int := none
  lastUsed : Option Int := none
  enabled : Bool := true
  isInvalid : Bool := false
  invalidReason : Option String := none
  cooldownUntil : Option Int := none
deriving Repr, DecidableEq, Inhabited

/-- The manager's mutable state: account list and rotation cursor. -/
structure PoolState where
  accounts : List CAccount
  activeIndex : Nat
deriving Repr, DecidableEq, Inhabited

/-- The cooldown test `acc.cooldownUntil && new Date(acc.cooldownUntil).getTime() > now`. -/
def cooldownFuture (now : Int) : Option Int → Bool
  | some t => decide (t > now)
  | none => false

/-- The availability test iterated by `selectAccount` (and shared with
`getAvailableAccounts`): enabled, not invalid, no future cooldown. -/
def accountSelectable (now : Int) (a : CAccount) : Bool :=
  a.enabled && !a.isInvalid && !cooldownFuture now a.cooldownUntil

/-- `getMinWaitMs()`: smallest time-to-cooldown-expiry over accounts whose
cooldown lies in the future, `0` when none do. -/
def getMinWaitMs (now : Int) (s : PoolState) : Int :=
  let future := (s.accounts.filterMap (·.cooldownUntil)).filter
    (fun t => t != 0 && decide (t > now))
  match future with
  | [] => 0
  | t :: ts => max 0 (ts.foldl min t - now)

/-- `selectAccount()`: rotate from `activeIndex`, return the first
selectable account (stamping `lastUsed` and advancing the cursor), else
`(null, getMinWaitMs())`.  The `saveToDisk` fire-and-forget is I/O only. -/
def selectAccount (now : Int) (s : PoolState) : (Option CAccount × Int) × PoolState :=
  let total := s.accounts.length
  if total = 0 then ((none, 0), s)
  else
    match (List.range total).find? (fun i =>
      accountSelectable now (s.accounts.getD ((s.activeIndex + i) % total) default)) with
    | some i =>
        let idx := (s.activeIndex + i) % total
        let acc := s.accounts.getD idx default
        let acc' := { acc with lastUsed := some now }
        ((some acc', 0),
         { accounts := s.accounts.set idx acc', activeIndex := (idx + 1) % total })
    | none => ((none, getMinWaitMs now s), s)

/-- The JS pattern `const acc = this.#accounts.find(...); if (acc) mutate(acc);`
shared by `markRateLimited`, `markInvalid` and `addAccount`: replace the
first matching element in place. -/
def markFirst (p : CAccount → Bool) (f : CAccount → CAccount) : List CAccount → List CAccount
  | [] => []
  | a :: rest => if p a then f a :: rest else a :: markFirst p f rest

/-- The account-matching predicate `a.id === accountId || a.email === accountId`. -/
def idOrEmailMatch (accountId : String) (a : CAccount) : Bool :=
  a.id == accountId || a.email == some accountId

/-- `markRateLimited(accountId, waitMs)`: sets
`cooldownUntil = new Date(Date.now() + waitMs)` on the first match. -/
def markRateLimited (accountId : String) (waitMs now : Int) (s : PoolState) : PoolState :=
  let upd := fun a => { a with cooldownUntil := some (now + waitMs) }
  { s with accounts := markFirst (idOrEmailMatch accountId) upd s.accounts }

/-- `markInvalid(accountId, reason)`: latches `isInvalid = true` and records
`invalidReason = reason || 'invalid'` on the first match. -/
def markInvalid (accountId reason : String) (s : PoolState) : PoolState :=
  let upd := fun a => { a with isInvalid := true, invalidReason := some (if reason = "" then "invalid" else reason) }
  { s with accounts := markFirst (idOrEmailMatch accountId) upd s.accounts }

/-- `addAccount(account)`: the operator action; an existing match is
overwritten via `Object.assign(exists, account, { enabled: true,
isInvalid: false, invalidReason: null })` (the incoming record carries all
fields), a new account is appended. -/
def addAccount (account : CAccount) (s : PoolState) : PoolState :=
  let p := fun a => a.id == account.id ||
    (match account.email with | some e => a.email == some e | none => false)
  let upd := fun _ => { account with enabled := true, isInvalid := false, invalidReason := none }
  if s.accounts.any p then
    { s with accounts := markFirst p upd s.accounts }
  else { s with accounts := s.accounts ++ [account] }

/-- The pool operations available to the dispatch path (no operator action:
`addAccount` is the operator's "clear the invalid flag" action and is
deliberately excluded from the latching statement, as the claim allows). -/
inductive PoolOp where
  | select (now : Int)
  | rateLimit (accountId : String) (waitMs now : Int)
  | invalid (accountId reason : String)
deriving Repr, DecidableEq

/-- Apply one pool operation (result value discarded). -/
def applyOp (s : PoolState) : PoolOp → PoolState
  | .select now => (selectAccount now s).2
  | .rateLimit accountId w now => markRateLimited accountId w now s
  | .invalid accountId r => markInvalid accountId r s

/-- Apply a sequence of pool operations. -/
def applyOps (s : PoolState) (ops : List PoolOp) : PoolState := ops.foldl applyOp s

/-- Every account with id `tid` is latched invalid. -/
def latched (tid : String) (s : PoolState) : Prop :=
  ∀ a ∈ s.accounts, a.id = tid → a.isInvalid = true

/-- Concrete two-account Cursor pool used by the witnesses. -/
def cursorAcctA : CAccount := { id := "alice" }

/-- Second concrete account of the witness pool. -/
def cursorAcctB : CAccount := { id := "bob" }

/-- Witness pool: accounts `alice` and `bob`, cursor at 0. -/
def cursorPool0 : PoolState := { accounts := [cursorAcctA, cursorAcctB], activeIndex := 0 }

/-! ## Streaming adapters: canonical event model -/

/-- Content-block kinds opened by `content_block_start`. -/
inductive BlockKind where
  | text
  | toolUse (id : String) (name : String)
deriving Repr, DecidableEq

/-- Delta payloads carried by `content_block_delta`. -/
inductive DeltaKind where
  | textDelta (s : String)
  | inputJsonDelta (partialJson : String)
deriving Repr, DecidableEq

/-- Canonical (Anthropic Messages) stream events as emitted by the
streaming adapters.  Fields no claim inspects (message id, model name,
cache token counts) are elided; usage token counts are carried as plain
numbers. -/
inductive AEvent where
  | messageStart (inputTokens : Nat)
  | blockStart (index : Nat) (kind : BlockKind)
  | blockDelta (index : Nat) (delta : DeltaKind)
  | blockStop (index : Nat)
  | messageDelta (stopReason : String) (outputTokens : Nat)
  | messageStop
deriving Repr, DecidableEq

/-- Whether an event is a `content_block_start` of a `tool_use` block. -/
def isToolUseStart : AEvent → Bool
  | .blockStart _ (.toolUse _ _) => true
  | _ => false

/-- Whether an event is a `content_block_start` with the given index. -/
def isStartIdx (i : Nat) : AEvent → Bool
  | .blockStart j _ => j == i
  | _ => false

/-- Whether an event is a `content_block_stop` with the given index. -/
def isStopIdx (i : Nat) : AEvent → Bool
  | .blockStop j => j == i
  | _ => false

/-- Whether an event is the `message_delta` event. -/
def isMessageDelta : AEvent → Bool
  | .messageDelta _ _ => true
  | _ => false

/-! ## Codex streaming adapter (src/src/codex/format.js, streamCodexResponseToAnthropic) -/

/-- Parsed Codex (OpenAI Responses) SSE events the adapter reacts to;
`other` covers every ignored event type.  Optional string fields are `none`
when the JSON field is absent or empty (JS-falsy). -/
inductive CodexEvent where
  | outputTextDelta (delta : String)
  | outputItemAddedFunctionCall (itemId : Option String) (callId : Option String) (name : Option String)
  | outputItemAddedWebSearch (itemId : Option String)
  | functionCallArgsDelta (itemId : Option String) (delta : String)
  | outputItemDone
  | completed (inputTokens outputTokens : Nat)
  | other
deriving Repr, DecidableEq

/-- Entry lookup in the `toolBlockMap` object (`itemId -> (callId, blockIndex)`). -/
def cxMapGet (m : List (String × String × Nat)) (k : String) : Option (String × Nat) :=
  (m.find? (fun e => e.1 == k)).map (·.2)

/-- Assignment `toolBlockMap[itemId] = entry` (in place on an existing key,
appended otherwise, matching JS object key order). -/
def cxMapSet (m : List (String × String × Nat)) (k : String) (v : String × Nat) :
    List (String × String × Nat) :=
  if m.any (fun e => e.1 == k) then m.map (fun e => if e.1 == k then (k, v) else e)
  else m ++ [(k, v)]

/-- `Object.keys(toolBlockMap).pop()`: the most recently inserted key (the
backend's item ids are non-numeric strings, so JS key order is insertion
order). -/
def cxMapLastKey (m : List (String × String × Nat)) : Option String :=
  (m.map (·.1)).getLast?

/-- Mutable state of `streamCodexResponseToAnthropic`, one field per JS
local. -/
structure CxState where
  started : Bool := false
  textBlockIndex : Option Nat := none
  currentToolItemId : Option String := none
  toolBlockMap : List (String × String × Nat) := []
  webSearchItemIds : List String := []
  nextIndex : Nat := 0
  outputTokens : Nat := 0
  inputTokens : Nat := 0
  hasToolUse : Bool := false
  freshCtr : Nat := 0
deriving Repr, DecidableEq

/-- Deterministic stand-in for `toolu_${crypto.randomBytes(12).toString('hex')}`. -/
def freshToolId (n : Nat) : String := "toolu_fresh" ++ toString n

/-- The adapter's `ensureStarted()` generator. -/
def cxEnsureStarted (st : CxState) : CxState × List AEvent :=
  if st.started then (st, [])
  else ({ st with started := true }, [AEvent.messageStart st.inputTokens])

/-- One parsed-event step of `streamCodexResponseToAnthropic`'s main loop. -/
def cxStep (st : CxState) : CodexEvent → CxState × List AEvent
  | .outputTextDelta delta =>
      if delta = "" then (st, [])
      else
        let p1 := cxEnsureStarted st
        match p1.1.textBlockIndex with
        | none =>
            let idx := p1.1.nextIndex
            ({ p1.1 with textBlockIndex := some idx, nextIndex := idx + 1 },
             p1.2 ++ [.blockStart idx .text, .blockDelta idx (.textDelta delta)])
        | some idx => (p1.1, p1.2 ++ [.blockDelta idx (.textDelta delta)])
  | .outputItemAddedFunctionCall itemId callId name =>
      let p1 := cxEnsureStarted st
      let p2 : CxState × List AEvent :=
        match p1.1.textBlockIndex with
        | some tIdx => ({ p1.1 with textBlockIndex := none }, [AEvent.blockStop tIdx])
        | none => (p1.1, [])
      let callId' := match callId with | some c => c | none => freshToolId p2.1.freshCtr
      let fresh' := match callId with | some _ => p2.1.freshCtr | none => p2.1.freshCtr + 1
      let itemId' := match itemId with | some i => i | none => callId'
      let blockIndex := p2.1.nextIndex
      let st3 := { p2.1 with
        toolBlockMap := cxMapSet p2.1.toolBlockMap itemId' (callId', blockIndex),
        currentToolItemId := some itemId',
        hasToolUse := true,
        nextIndex := blockIndex + 1,
        freshCtr := fresh' }
      (st3, p1.2 ++ p2.2 ++ [.blockStart blockIndex (.toolUse callId' (name.getD ""))])
  | .outputItemAddedWebSearch itemId =>
      let wsid := itemId.getD ""
      if st.webSearchItemIds.contains wsid then (st, [])
      else ({ st with webSearchItemIds := st.webSearchItemIds ++ [wsid] }, [])
  | .functionCallArgsDelta itemId delta =>
      if delta = "" then (st, [])
      else
        let entry : Option (String × Nat) :=
          match itemId with
          | some i => cxMapGet st.toolBlockMap i
          | none =>
              match st.currentToolItemId with
              | some c => cxMapGet st.toolBlockMap c
              | none => none
        match entry with
        | some e => (st, [.blockDelta e.2 (.inputJsonDelta delta)])
        | none =>
            let lastItemId : Option String :=
              match st.currentToolItemId with
              | some c => some c
              | none => cxMapLastKey st.toolBlockMap
            match lastItemId with
            | some l =>
                match cxMapGet st.toolBlockMap l with
                | some e => (st, [.blockDelta e.2 (.inputJsonDelta delta)])
                | none => (st, [])
            | none => (st, [])
  | .outputItemDone => (st, [])
  | .completed inTok outTok =>
      ({ st with
          inputTokens := if inTok ≠ 0 then inTok else st.inputTokens,
          outputTokens := if outTok ≠ 0 then outTok else st.outputTokens }, [])
  | .other => (st, [])

/-- Fold of `cxStep` over the parsed event list, accumulating emissions. -/
def cxRun (st : CxState) : List CodexEvent → CxState × List AEvent
  | [] => (st, [])
  | e :: rest =>
      let p := cxStep st e
      let q := cxRun p.1 rest
      (q.1, p.2 ++ q.2)

/-- End-of-stream emissions of `streamCodexResponseToAnthropic`: the
no-content minimal stream when `!started`; otherwise close the open text
block and the `currentToolItemId` tool block, then `message_delta` +
`message_stop`. -/
def cxEpilogue (st : CxState) : List AEvent :=
  (if st.started = false then
    [AEvent.messageStart 0, .blockStart 0 .text, .blockStop 0]
  else
    (match st.textBlockIndex with
     | some t => [AEvent.blockStop t]
     | none => [])
    ++ (match st.currentToolItemId with
        | some c =>
            match cxMapGet st.toolBlockMap c with
            | some e => [AEvent.blockStop e.2]
            | none => []
        | none => []))
  ++ [.messageDelta (if st.hasToolUse then "tool_use" else "end_turn") st.outputTokens,
      .messageStop]

/-- `streamCodexResponseToAnthropic`, as a function from the parsed wire
event sequence (the SSE line/JSON plumbing upstream of the `eventType`
dispatch is I/O) to the emitted canonical events. -/
def streamCodexToAnthropic (evs : List CodexEvent) : List AEvent :=
  let r := cxRun {} evs
  r.2 ++ cxEpilogue r.1

/-! ## Cursor streaming adapter (src/src/cursor/format.js, streamCursorResponseToAnthropic) -/

/-- One tool call decoded from a Cursor frame.  Modelled from the spec:
the decoder `extractTextFromResponse` lives in
`src/src/cursor/cursorProtobuf.js`, which is not among the provided
sources; per spec §4.6 each payload decodes to an intermediate
`\x7btext?, toolCall?, error?\x7d`, the tool call carrying
`id`, `function.name`, `function.arguments` and an `isLast` marker. -/
structure CursorToolCall where
  id : String
  name : Option String := none
  args : Option String := none
  isLast : Bool := false
deriving Repr, DecidableEq

/-- The intermediate decode of one Cursor frame payload (spec §4.6). -/
structure CursorResult where
  text : Option String := none
  toolCall : Option CursorToolCall := none
  error : Option String := none
deriving Repr, DecidableEq

/-- Mutable state of `streamCursorResponseToAnthropic`:
`toolBlocks : Map id -> \x7bindex, closed\x7d` keeps insertion order. -/
structure CuState where
  started : Bool := false
  nextIndex : Nat := 0
  textBlockIndex : Option Nat := none
  sawToolCall : Bool := false
  toolBlocks : List (String × Nat × Bool) := []
deriving Repr, DecidableEq

/-- `toolBlocks.get(id)`. -/
def cuMapGet (m : List (String × Nat × Bool)) (k : String) : Option (Nat × Bool) :=
  (m.find? (fun e => e.1 == k)).map (·.2)

/-- `toolBlocks.set(id, block)` (in place on an existing key). -/
def cuMapSet (m : List (String × Nat × Bool)) (k : String) (v : Nat × Bool) :
    List (String × Nat × Bool) :=
  if m.any (fun e => e.1 == k) then m.map (fun e => if e.1 == k then (k, v) else e)
  else m ++ [(k, v)]

/-- The adapter's `ensureMessageStart()`. -/
def cuEnsureStarted (st : CuState) : CuState × List AEvent :=
  if st.started then (st, [])
  else ({ st with started := true }, [AEvent.messageStart 0])

/-- One `result` step of `streamCursorResponseToAnthropic`'s loop over the
parsed frame results. -/
def cuStep (st : CuState) : CursorResult → CuState × List AEvent
  | r =>
    match r.toolCall with
    | some tc =>
        let st0 := { st with sawToolCall := true }
        let p1 := cuEnsureStarted st0
        let p2 : CuState × List AEvent :=
          match p1.1.textBlockIndex with
          | some t => ({ p1.1 with textBlockIndex := none }, [AEvent.blockStop t])
          | none => (p1.1, [])
        let p3 : CuState × List AEvent × Nat :=
          match cuMapGet p2.1.toolBlocks tc.id with
          | some (idx, closed) =>
              if closed then
                let idx' := p2.1.nextIndex
                let stNew := { p2.1 with
                  nextIndex := idx' + 1,
                  toolBlocks := cuMapSet p2.1.toolBlocks tc.id (idx', false) }
                (stNew, [AEvent.blockStart idx' (.toolUse tc.id (tc.name.getD "tool"))], idx')
              else (p2.1, [], idx)
          | none =>
              let idx' := p2.1.nextIndex
              let stNew := { p2.1 with
                nextIndex := idx' + 1,
                toolBlocks := cuMapSet p2.1.toolBlocks tc.id (idx', false) }
              (stNew, [AEvent.blockStart idx' (.toolUse tc.id (tc.name.getD "tool"))], idx')
        let argsOut : List AEvent :=
          match tc.args with
          | some a => if a = "" then [] else [.blockDelta p3.2.2 (.inputJsonDelta a)]
          | none => []
        if tc.isLast then
          ({ p3.1 with toolBlocks := cuMapSet p3.1.toolBlocks tc.id (p3.2.2, true) },
           p1.2 ++ p2.2 ++ p3.2.1 ++ argsOut ++ [.blockStop p3.2.2])
        else (p3.1, p1.2 ++ p2.2 ++ p3.2.1 ++ argsOut)
    | none =>
        match r.text with
        | some t =>
            if t = "" then (st, [])
            else
              let p1 := cuEnsureStarted st
              let stops := (p1.1.toolBlocks.filter (fun e => !e.2.2)).map
                (fun e => AEvent.blockStop e.2.1)
              let closeAll := fun (e : String × Nat × Bool) => (e.1, e.2.1, true)
              let st2 := { p1.1 with toolBlocks := p1.1.toolBlocks.map closeAll }
              let p3 : CuState × List AEvent :=
                match st2.textBlockIndex with
                | none =>
                    let idx := st2.nextIndex
                    ({ st2 with textBlockIndex := some idx, nextIndex := idx + 1 },
                     [AEvent.blockStart idx .text])
                | some _ => (st2, [])
              let tIdx := p3.1.textBlockIndex.getD 0
              (p3.1, p1.2 ++ stops ++ p3.2 ++ [.blockDelta tIdx (.textDelta t)])
        | none => (st, [])

/-- Fold of `cuStep` over the frame results, accumulating emissions. -/
def cuRun (st : CuState) : List CursorResult → CuState × List AEvent
  | [] => (st, [])
  | r :: rest =>
      let p := cuStep st r
      let q := cuRun p.1 rest
      (q.1, p.2 ++ q.2)

/-- End-of-loop emissions of `streamCursorResponseToAnthropic` when the
stream started: close the open text block, close every still-open tool
block, then `message_delta` + `message_stop`. -/
def cuEpilogue (st : CuState) : List AEvent :=
  (match st.textBlockIndex with
   | some t => [AEvent.blockStop t]
   | none => [])
  ++ ((st.toolBlocks.filter (fun e => !e.2.2)).map (fun e => AEvent.blockStop e.2.1))
  ++ [.messageDelta (if st.sawToolCall then "tool_use" else "end_turn") 0, .messageStop]

/-- `streamCursorResponseToAnthropic` from the parsed frame results to the
emitted canonical events; `throw new Error('No content received from
Cursor response')` when nothing started. -/
def streamCursorToAnthropic (results : List CursorResult) : Except String (List AEvent) :=
  if (cuRun {} results).1.started = false then
    .error "No content received from Cursor response"
  else .ok ((cuRun {} results).2 ++ cuEpilogue (cuRun {} results).1)

/-- Quiescent adapter state: nothing opened, nothing recorded. -/
def cxQuiet (st : CxState) : Prop :=
  st.textBlockIndex = none ∧ st.currentToolItemId = none ∧
  st.toolBlockMap = [] ∧ st.hasToolUse = false

/-- The failing backend stream for the block-framing claim: two
`response.output_item.added` function-call items. -/
def codexTwoToolStream : List CodexEvent :=
  [.outputItemAddedFunctionCall (some "i1") (some "c1") (some "A"),
   .outputItemAddedFunctionCall (some "i2") (some "c2") (some "B")]

/-! ## Cursor response buffer parsing (src/src/cursor/format.js, parseCursorResponseBuffer) -/

/-- `buffer.readUInt32BE(off)` over a byte list (bytes as `Nat`,
out-of-range reads yield 0 — the source only reads in-range offsets, which
the theorems establish). -/
def readBE32 (b : List Nat) (off : Nat) : Nat :=
  b.getD off 0 * 16777216 + b.getD (off + 1) 0 * 65536 +
    b.getD (off + 2) 0 * 256 + b.getD (off + 3) 0

/-- Byte-prefix test (ASCII prefixes survive UTF-8 decoding unchanged). -/
def bytesStartWith : List Nat → List Nat → Bool
  | [], _ => true
  | _ :: _, [] => false
  | p :: ps, b :: bs => p == b && bytesStartWith ps bs

/-- Byte-substring test, for `text.includes('"error"')`. -/
def bytesContain (pat : List Nat) : List Nat → Bool
  | [] => bytesStartWith pat []
  | b :: bs => bytesStartWith pat (b :: bs) || bytesContain pat bs

/-- The ASCII bytes of `\x7b"error"` checked by `decompressPayload`. -/
def errorLiteralBytes : List Nat := [0x7b, 0x22, 0x65, 0x72, 0x72, 0x6f, 0x72, 0x22]

/-- `decompressPayload(payload, flags)`: a payload that textually starts
with `\x7b"error"` is returned as-is; gzip flags 0x01/0x02/0x03 attempt
`zlib.gunzipSync` (the oracle `gz`; `none` models a decompression throw,
caught and answered with the raw payload); anything else passes through. -/
def decompressPayload (gz : List Nat → Option (List Nat)) (payload : List Nat)
    (flags : Nat) : List Nat :=
  if payload.length > 10 && payload.getD 0 0 == 0x7b && payload.getD 1 0 == 0x22
      && bytesStartWith errorLiteralBytes payload then payload
  else if flags == 1 || flags == 2 || flags == 3 then
    match gz payload with
    | some out => out
    | none => payload
  else payload

/-- Index access into a JSON array (`details?.[0]`). -/
def jGetIdx (v : J) (i : Nat) : Option J :=
  match v with
  | .arr xs => xs.get? i
  | _ => none

/-- The error-message chain `jsonError?.error?.message ||
jsonError?.error?.details?.[0]?.debug?.details?.title || 'Cursor API
error'`. -/
def cursorErrMsg (v : J) : String :=
  let c1 : Option J := (jGet v "error").bind (fun e => jGet e "message")
  let c2 : Option J := (jGet v "error").bind (fun e => (jGet e "details").bind
    (fun d => (jGetIdx d 0).bind (fun d0 => (jGet d0 "debug").bind
      (fun dg => (jGet dg "details").bind (fun dd => jGet dd "title")))))
  if jTruthyOpt c1 then jToString (c1.getD J.null)
  else if jTruthyOpt c2 then jToString (c2.getD J.null)
  else "Cursor API error"

/-- `parseJsonError(payload)`: only a payload whose text starts with `\x7b`
and contains `"error"` is JSON-parsed (the oracle `pj` models `JSON.parse`
over the decoded text; `none` = parse failure, swallowed). -/
def parseJsonErrorFn (pj : List Nat → Option J) (payload : List Nat) : Option J :=
  if bytesStartWith [0x7b] payload
      && bytesContain [0x22, 0x65, 0x72, 0x72, 0x6f, 0x72, 0x22] payload then
    pj payload
  else none

/-- A deliberate status-coded error thrown by `parseCursorResponseBuffer`. -/
structure CursorApiError where
  statusCode : Nat
  message : String
deriving Repr, DecidableEq

/-- `parseCursorResponseBuffer(buffer)`: split the buffer into frames (one
flag byte, 4-byte big-endian length, payload), stopping silently at the
first truncated frame; decompress each payload, surface embedded JSON
errors as statusCode-400 throws and decoder-reported errors as
statusCode-429 throws, else collect the decoded results.  `ex` is the
decoder `extractTextFromResponse` (modelled from the spec, its source file
`cursorProtobuf.js` not being provided). -/
def parseCursorResponseBuffer (gz : List Nat → Option (List Nat))
    (pj : List Nat → Option J) (ex : List Nat → CursorResult)
    (buf : List Nat) : Except CursorApiError (List CursorResult) :=
  if _h5 : buf.length < 5 then .ok []
  else
    let flags := buf.getD 0 0
    let len := readBE32 buf 1
    if _hlen : 5 + len > buf.length then .ok []
    else
      let payload := decompressPayload gz ((buf.drop 5).take len) flags
      match parseJsonErrorFn pj payload with
      | some v => .error ⟨400, cursorErrMsg v⟩
      | none =>
          let r := ex payload
          match r.error with
          | some em => .error ⟨429, em⟩
          | none =>
              match parseCursorResponseBuffer gz pj ex (buf.drop (5 + len)) with
              | .ok rest => .ok (r :: rest)
              | .error e => .error e
termination_by buf.length
decreasing_by
  simp only [List.length_drop]
  omega

/-- Big-endian 32-bit length encoding, inverse of `readBE32`. -/
def be32 (n : Nat) : List Nat :=
  [n / 16777216 % 256, n / 65536 % 256, n / 256 % 256, n % 256]

/-- One wire frame: flag byte, 4-byte big-endian payload length, payload. -/
def encodeFrame (f : Nat × List Nat) : List Nat :=
  f.1 :: be32 f.2.length ++ f.2

/-- Concatenation of encoded frames. -/
def encodeFrames : List (Nat × List Nat) → List Nat
  | [] => []
  | f :: fs => encodeFrame f ++ encodeFrames fs

/-- Refinement reference for `parseCursorResponseBuffer`, following the
claim's words: process exactly the (flag, payload) sequence, payload by
payload. -/
def processPayloads (gz : List Nat → Option (List Nat)) (pj : List Nat → Option J)
    (ex : List Nat → CursorResult) : List (Nat × List Nat) → Except CursorApiError (List CursorResult)
  | [] => .ok []
  | (flags, payload) :: rest =>
      let payload' := decompressPayload gz payload flags
      match parseJsonErrorFn pj payload' with
      | some v => .error ⟨400, cursorErrMsg v⟩
      | none =>
          let r := ex payload'
          match r.error with
          | some em => .error ⟨429, em⟩
          | none =>
              match processPayloads gz pj ex rest with
              | .ok others => .ok (r :: others)
              | .error e => .error e

/-- Witness oracle: `zlib.gunzipSync` that always fails. -/
def gzNone : List Nat → Option (List Nat) := fun _ => none

/-- Witness oracle: `JSON.parse` that always fails. -/
def pjNone : List Nat → Option J := fun _ => none

/-- Witness oracle: a decoder returning a plain text result. -/
def exText : List Nat → CursorResult := fun _ => { text := some "A" }

/-! ## Codex schema sanitizer (src/src/codex/format.js, sanitizeSchema /
normalizeFunctionParameters) -/

/-- The fallback schema for absent / non-object inputs. -/
def reasonSchema : J :=
  J.obj [("type", J.str "object"),
         ("properties", J.obj [("reason", J.obj [("type", J.str "string"),
            ("description", J.str "Reason for calling this tool")])]),
         ("required", J.arr [J.str "reason"])]

/-- Whether a value is a JS non-null `typeof === 'object'` (object or
array). -/
def isObjLike : J → Bool
  | .obj _ => true
  | .arr _ => true
  | _ => false

/-- Truthiness of a possibly-absent string field (`undefined`/`''` are
falsy). -/
def strTruthy : Option String → Bool
  | some s => s != ""
  | none => false

/-- `Array.isArray(result.type)` flattening: first non-`'null'` member,
else `'string'`. -/
def flattenTypeArray (fs : List (String × J)) : List (String × J) :=
  match getKey fs "type" with
  | some (J.arr ts) =>
      let nonNull := ts.filter (fun t => !(jPrimEq t (J.str "null")))
      setKey fs "type" (match nonNull with | [] => J.str "string" | t :: _ => t)
  | _ => fs

/-- The `$ref` replacement `\x7btype: 'object', description: 'See: <last
path segment>'\x7d`. -/
def refReplacement (fs : List (String × J)) : J :=
  let refv := (getKey fs "$ref").getD J.null
  let parts := (jToString refv).splitOn "/"
  let nm := match parts.getLast? with
    | some s => if s = "" then "object" else s
    | none => "object"
  match getKey fs "description" with
  | some d =>
      if jTruthy d then
        J.obj [("type", J.str "object"),
               ("description", J.str (jToString d ++ " (See: " ++ nm ++ ")"))]
      else J.obj [("type", J.str "object"), ("description", J.str ("See: " ++ nm))]
  | none => J.obj [("type", J.str "object"), ("description", J.str ("See: " ++ nm))]

/-- One `allOf` member folded into the accumulator `merged` (initialised
to `\x7bproperties: \x7b\x7d, required: []\x7d`; its non-properties /
non-required keys are written but never read back by the source). -/
def allOfStep (merged : List (String × J)) (sub : J) : List (String × J) :=
  if !isObjLike sub then merged
  else
    let m1 :=
      if jTruthyOpt (jGet sub "properties") then
        let cur := (getKey merged "properties").getD (J.obj [])
        setKey merged "properties"
          (J.obj (((jGet sub "properties").getD J.null |> jOwnEntries).foldl
            (fun acc kv => setKey acc kv.1 kv.2) (jOwnEntries cur)))
      else merged
    let m2 :=
      match jGet sub "required" with
      | some (J.arr rs) =>
          (match getKey m1 "required" with
           | some (J.arr cur) => setKey m1 "required" (J.arr (cur ++ rs))
           | _ => m1)
      | _ => m1
    (jOwnEntries sub).foldl (fun acc kv =>
      if kv.1 == "properties" || kv.1 == "required" then acc
      else if hasKey acc kv.1 then acc
      else acc ++ [kv]) m2

/-- JS iterable spread `[...v]` for the values the source spreads: arrays
spread their members, strings their characters; other truthy values make
JS throw a TypeError (the source never reaches that with JSON-schema
input; the model totalises them to `[]`). -/
def jIterate : J → List J
  | .arr xs => xs
  | .str s => s.toList.map (fun c => J.str (String.mk [c]))
  | _ => []

/-- The `allOf` merge block of `sanitizeSchema`. -/
def mergeAllOf (fs : List (String × J)) : List (String × J) :=
  match getKey fs "allOf" with
  | some (J.arr subs) =>
      if subs.isEmpty then fs
      else
        let merged := subs.foldl allOfStep [("properties", J.obj []), ("required", J.arr [])]
        let fs1 := delKey fs "allOf"
        let mprops := jOwnEntries ((getKey merged "properties").getD (J.obj []))
        let fs2 :=
          if mprops.length > 0 then
            let curProps := match getKey fs1 "properties" with
              | some v => if jTruthy v then v else J.obj []
              | none => J.obj []
            setKey fs1 "properties" (J.obj (objFromEntries (mprops ++ jOwnEntries curProps)))
          else fs1
        let mreq := match getKey merged "required" with
          | some (J.arr rs) => rs
          | _ => []
        if mreq.length > 0 then
          let curReq : List J := match getKey fs2 "required" with
            | some v => if jTruthy v then jIterate v else []
            | none => []
          setKey fs2 "required" (J.arr (dedupSetJS (mreq ++ curReq)))
        else fs2
  | _ => fs

/-- The branch scoring of the `anyOf`/`oneOf` flattening: object-ish 3,
array-ish 2, typed non-null 1, else 0. -/
def unionScore (o : J) : Nat :=
  if jPrimEq ((jGet o "type").getD J.null) (J.str "object")
      || jTruthyOpt (jGet o "properties") then 3
  else if jPrimEq ((jGet o "type").getD J.null) (J.str "array")
      || jTruthyOpt (jGet o "items") then 2
  else
    match jGet o "type" with
    | some t => if jTruthy t && !(jPrimEq t (J.str "null")) then 1 else 0
    | none => 0

/-- Flattening of one union keyword (`anyOf` or `oneOf`): pick the best
branch, delete the keyword, copy the branch's entries over (always for
`type`/`properties`/`items`, otherwise only into absent keys). -/
def flattenUnion (key : String) (fs : List (String × J)) : List (String × J) :=
  match getKey fs key with
  | some (J.arr opts0) =>
      if opts0.isEmpty then fs
      else
        let opts := opts0.filter isObjLike
        let fs1 := delKey fs key
        match opts with
        | [] => fs1
        | o0 :: _ =>
            let best := opts.foldl (fun a b => if unionScore a ≥ unionScore b then a else b) o0
            (jOwnEntries best).foldl (fun acc kv =>
              if !hasKey acc kv.1 || kv.1 == "type" || kv.1 == "properties" || kv.1 == "items"
              then setKey acc kv.1 kv.2 else acc) fs1
  | _ => fs

/-- The unsupported keywords stripped by `sanitizeSchema` (the `STRIP`
list). -/
def STRIP_KEYS : List String :=
  ["additionalProperties", "default", "$schema", "$defs", "definitions",
   "$ref", "$id", "$comment", "minLength", "maxLength", "pattern", "format",
   "minItems", "maxItems", "examples", "allOf", "anyOf", "oneOf", "const"]

/-- `for (const k of STRIP) delete result[k]`. -/
def stripBanned (fs : List (String × J)) : List (String × J) :=
  STRIP_KEYS.foldl delKey fs

/-- Recursion into `result.properties` (truthy, `typeof 'object'`): every
value is sanitized and reassembled into a fresh object. -/
def recurseProps (f : J → J) (fs : List (String × J)) : List (String × J) :=
  match getKey fs "properties" with
  | some v =>
      if jTruthy v && isObjLike v then
        setKey fs "properties"
          (J.obj (objFromEntries ((jOwnEntries v).map (fun kv => (kv.1, f kv.2)))))
      else fs
  | none => fs

/-- Recursion into truthy `result.items` (elementwise on arrays). -/
def recurseItems (f : J → J) (fs : List (String × J)) : List (String × J) :=
  match getKey fs "items" with
  | some v =>
      if jTruthy v then
        match v with
        | J.arr xs => setKey fs "items" (J.arr (xs.map f))
        | _ => setKey fs "items" (f v)
      else fs
  | none => fs

/-- Intersection of `required` with the declared property keys; an empty
intersection deletes `required`. -/
def intersectRequired (fs : List (String × J)) : List (String × J) :=
  match getKey fs "required" with
  | some (J.arr rs) =>
      match getKey fs "properties" with
      | some props =>
          if jTruthy props then
            let keys := jOwnKeys props
            let rs' := rs.filter (fun p => match p with | J.str s => keys.contains s | _ => false)
            if rs'.isEmpty then delKey fs "required" else setKey fs "required" (J.arr rs')
          else fs
      | none => fs
  | _ => fs

/-- `sanitizeSchema`, fuelled: the JS recursion descends only into strict
subterms of the input (property values, items, union branches), so `sizeOf
s` fuel never runs out; the fuel-0 fallback is the same default schema the
function returns for non-objects. -/
def sanitizeSchemaF : Nat → J → J
  | 0, _ => reasonSchema
  | fuel + 1, s =>
      match s with
      | J.arr xs => J.arr (xs.map (sanitizeSchemaF fuel))
      | J.obj fields =>
          let r0 := objFromEntries fields
          let r1 := flattenTypeArray r0
          if jTruthyOpt (getKey r1 "$ref") then refReplacement r1
          else
            let r2 := mergeAllOf r1
            let r3 := flattenUnion "anyOf" r2
            let r4 := flattenUnion "oneOf" r3
            let r5 := stripBanned r4
            let r6 := recurseProps (sanitizeSchemaF fuel) r5
            let r7 := recurseItems (sanitizeSchemaF fuel) r6
            J.obj (intersectRequired r7)
      | _ => reasonSchema

mutual

/-- Computable size of a JSON value (fuel bound for the sanitizer). -/
def jSize : J → Nat
  | .null => 1
  | .bool _ => 1
  | .num _ => 1
  | .str _ => 1
  | .arr xs => 1 + jSizeList xs
  | .obj fs => 1 + jSizeFields fs

/-- Size of an array's members. -/
def jSizeList : List J → Nat
  | [] => 0
  | x :: xs => 1 + jSize x + jSizeList xs

/-- Size of an object's fields. -/
def jSizeFields : List (String × J) → Nat
  | [] => 0
  | (_, v) :: fs => 1 + jSize v + jSizeFields fs

end

/-- `sanitizeSchema(schema)`. -/
def sanitizeSchema (s : J) : J := sanitizeSchemaF (jSize s) s

/-- `sanitizeSchema` applied to a possibly-absent raw schema
(`sanitizeSchema(undefined)` takes the falsy branch). -/
def sanitizeSchemaOpt : Option J → J
  | none => reasonSchema
  | some v => sanitizeSchema v

/-- `normalizeFunctionParameters(schema)`: non-objects (and arrays) become
`\x7btype: 'object', properties: \x7b\x7d\x7d`; a truthy non-`'object'`
type wraps the schema under an `input` property; missing `type` /
`properties` are defaulted; `required` is re-intersected. -/
def normalizeFunctionParameters (schema : J) : J :=
  match schema with
  | J.obj fields =>
      let result := objFromEntries fields
      if jTruthyOpt (getKey result "type")
          && !(jPrimEq ((getKey result "type").getD J.null) (J.str "object")) then
        J.obj [("type", J.str "object"),
               ("properties", J.obj [("input", J.obj result)]),
               ("required", J.arr [J.str "input"])]
      else
        let r1 := if jTruthyOpt (getKey result "type") then result
          else setKey result "type" (J.str "object")
        let r2 := match getKey r1 "properties" with
          | some (J.obj pfs) => setKey r1 "properties" (J.obj pfs)
          | _ => setKey r1 "properties" (J.obj [])
        let r3 := match getKey r2 "required" with
          | some (J.arr rs) =>
              let allowed := jOwnKeys ((getKey r2 "properties").getD (J.obj []))
              let rs' := rs.filter (fun q => match q with
                | J.str s => allowed.contains s
                | _ => false)
              if rs'.isEmpty then delKey r2 "required" else setKey r2 "required" (J.arr rs')
          | _ => r2
        J.obj r3
  | _ => J.obj [("type", J.str "object"), ("properties", J.obj [])]

/-! ## Codex request converter (src/src/codex/format.js, convertAnthropicToCodexRequest) -/

/-- A canonical tool declaration; the raw schema is looked up through the
source's fallback chain `t.input_schema || t.function?.input_schema ||
t.function?.parameters || t.parameters`. -/
structure ToolDecl where
  name : Option String := none
  description : Option String := none
  input_schema : Option J := none
  fnInputSchema : Option J := none
  fnParameters : Option J := none
  parameters : Option J := none

/-- JS `a || b` over possibly-absent JSON values. -/
def orTruthy (a b : Option J) : Option J :=
  if jTruthyOpt a then a else b

/-- The raw-schema fallback chain of the tools loop. -/
def rawSchemaOf (t : ToolDecl) : Option J :=
  orTruthy t.input_schema (orTruthy t.fnInputSchema (orTruthy t.fnParameters t.parameters))

/-- Canonical message content blocks. -/
inductive CBlock where
  | text (text : Option String)
  | toolUse (id : Option String) (name : Option String) (input : Option J)
  | toolResult (toolUseId : Option String) (id : Option String) (content : Option J)
  | thinking
  | other
deriving Repr

/-- A content block together with its optional `cache_control` marker
(stripped by `cleanCacheControl` before conversion). -/
structure RawBlock where
  cacheControl : Option J := none
  core : CBlock
deriving Repr

/-- Canonical message content: a plain string, a block sequence, or
anything else. -/
inductive MsgContent where
  | str (s : String)
  | blocks (bs : List RawBlock)
  | other
deriving Repr

/-- A canonical message. -/
structure CMessage where
  role : String
  content : MsgContent
deriving Repr

/-- `cleanCacheControl(messages)`: remove `cache_control` from every block
of array-shaped contents. -/
def cleanCacheControl (msgs : List CMessage) : List CMessage :=
  msgs.map (fun m =>
    match m.content with
    | .blocks bs => { m with content := .blocks (bs.map (fun b => { b with cacheControl := none })) }
    | _ => m)

/-- `toolResultToOutput(content)`. -/
def toolResultToOutput : Option J → String
  | some (J.str s) => s
  | some (J.arr xs) =>
      let texts := String.intercalate "\n"
        ((xs.filter (fun c => jTruthy c && jPrimEq ((jGet c "type").getD J.null) (J.str "text"))).map
          (fun c => if jTruthyOpt (jGet c "text") then jToString ((jGet c "text").getD J.null) else ""))
      if texts != "" then texts else jStringify (J.arr xs)
  | some (J.obj fs) => jStringify (J.obj fs)
  | some _ => ""
  | none => ""

/-- Wire entries of the generated `input` array. -/
inductive CodexInput where
  | message (role : String) (parts : List (String × String))
  | functionCall (callId : String) (name : String) (args : String)
  | functionCallOutput (callId : String) (output : String)
deriving Repr, DecidableEq

/-- Wire entries of the generated `tools` array. -/
inductive CodexTool where
  | webSearch
  | function (name : Option String) (description : Option String) (parameters : J)
deriving Repr, BEq

/-- `block.name === 'WebSearch' || block.name === 'web_search'`. -/
def isWebSearchName (n : Option String) : Bool :=
  n == some "WebSearch" || n == some "web_search"

/-- The pre-scan collecting the ids of WebSearch `tool_use` blocks into a
`Set` (first insertion order, duplicates merged). -/
def webSearchToolUseIds (msgs : List CMessage) : List (Option String) :=
  msgs.foldl (fun acc m =>
    match m.content with
    | .blocks bs =>
        bs.foldl (fun acc2 b =>
          match b.core with
          | .toolUse bid bname _ =>
              if isWebSearchName bname then
                (if acc2.contains bid then acc2 else acc2 ++ [bid])
              else acc2
          | _ => acc2) acc
    | _ => acc) []

/-- Deterministic stand-in for `call_${crypto.randomBytes(8).toString('hex')}`. -/
def freshCallId (n : Nat) : String := "call_fresh" ++ toString n

/-- The text parts a user/assistant message contributes
(`input_text`/`output_text`). -/
def msgTextParts (role : String) (content : MsgContent) : List (String × String) :=
  match content with
  | .blocks bs =>
      bs.foldl (fun acc b =>
        match b.core with
        | .text (some t) =>
            if t != "" then
              acc ++ [(if role = "user" then "input_text" else "output_text", t)]
            else acc
        | _ => acc) []
  | .str s =>
      if s != "" then [(if role = "user" then "input_text" else "output_text", s)] else []
  | .other => []

/-- The `function_call` / `function_call_output` entries one block
contributes, threading the fresh-id counter; WebSearch `tool_use` blocks
and `tool_result` blocks whose `tool_use_id` is a collected WebSearch id
contribute nothing. -/
def blockToolEntries (wsIds : List (Option String)) (ctr : Nat) (b : RawBlock) :
    Nat × List CodexInput :=
  match b.core with
  | .toolUse bid bname binput =>
      if isWebSearchName bname then (ctr, [])
      else
        let callId := if strTruthy bid then bid.getD "" else freshCallId ctr
        let ctr' := if strTruthy bid then ctr else ctr + 1
        let inputVal := if jTruthyOpt binput then binput.getD J.null else J.obj []
        (ctr', [.functionCall callId (bname.getD "") (jStringify inputVal)])
  | .toolResult tuid bid bcontent =>
      if wsIds.contains tuid then (ctr, [])
      else
        let callId := if strTruthy tuid then tuid.getD ""
          else if strTruthy bid then bid.getD "" else freshCallId ctr
        let ctr' := if strTruthy tuid || strTruthy bid then ctr else ctr + 1
        (ctr', [.functionCallOutput callId (toolResultToOutput bcontent)])
  | _ => (ctr, [])

/-- The `input` entries one message contributes: its text message (for
user/assistant roles with non-empty text parts) followed by its tool
entries when the content holds tool blocks. -/
def msgInput (wsIds : List (Option String)) (ctr : Nat) (m : CMessage) :
    Nat × List CodexInput :=
  let textEntry : List CodexInput :=
    if m.role = "user" || m.role = "assistant" then
      let parts := msgTextParts m.role m.content
      if parts.length > 0 then [.message m.role parts] else []
    else []
  let hasToolBlocks :=
    match m.content with
    | .blocks bs => bs.any (fun b =>
        match b.core with
        | .toolUse _ _ _ => true
        | .toolResult _ _ _ => true
        | _ => false)
    | _ => false
  if hasToolBlocks then
    match m.content with
    | .blocks bs =>
        let r := bs.foldl (fun acc b =>
          let e := blockToolEntries wsIds acc.1 b
          (e.1, acc.2 ++ e.2)) (ctr, [])
        (r.1, textEntry ++ r.2)
    | _ => (ctr, textEntry)
  else (ctr, textEntry)

/-- The generated `input` array over the (cache-stripped) messages. -/
def codexInput (msgs : List CMessage) : List CodexInput :=
  let wsIds := webSearchToolUseIds msgs
  (msgs.foldl (fun acc m =>
    let r := msgInput wsIds acc.1 m
    (r.1, acc.2 ++ r.2)) (0, [])).2

/-- The agent-spawning tool names the converter drops. -/
def BLOCKED_TOOLS : List String := ["Task", "dispatch_agent", "computer", "browser"]

/-- One converted function tool entry (sanitize then normalize). -/
def codexFunctionTool (t : ToolDecl) : CodexTool :=
  .function t.name t.description (normalizeFunctionParameters (sanitizeSchemaOpt (rawSchemaOf t)))

/-- The generated `tools` array: one native `web_search` entry when a
WebSearch declaration is present, then the remaining (non-WebSearch,
non-blocked) declarations as function tools.  An empty declaration list
leaves `tools` absent in the source; the model renders that as `[]`. -/
def codexTools (tools : List ToolDecl) : List CodexTool :=
  if tools.isEmpty then []
  else
    let hasWebSearch := tools.any (fun t => isWebSearchName t.name)
    let otherTools := tools.filter (fun t =>
      !(t.name == some "WebSearch") && !(t.name == some "web_search") &&
        !(match t.name with | some n => BLOCKED_TOOLS.contains n | none => false))
    (if hasWebSearch then [CodexTool.webSearch] else []) ++ otherTools.map codexFunctionTool

/-- The parts of `convertAnthropicToCodexRequest` the claims inspect
(`instructions`, sampling fields and `tool_choice` translation are
orthogonal to the verified properties). -/
structure CodexRequest where
  input : List CodexInput
  tools : List CodexTool
deriving Repr

/-- `convertAnthropicToCodexRequest`: strip `cache_control`, then build
`input` and `tools`. -/
def convertAnthropicToCodexRequest (msgs : List CMessage) (tools : List ToolDecl) : CodexRequest :=
  let cleaned := cleanCacheControl msgs
  { input := codexInput cleaned, tools := codexTools tools }

/-! ## C7: native web_search replacement -/

/-- Recogniser for the native `web_search` wire tool entry. -/
def isWebSearchTool : CodexTool → Bool
  | .webSearch => true
  | _ => false

/-- Concrete tool list containing a WebSearch declaration (witness data). -/
def wsTools : List ToolDecl :=
  [{ name := some "WebSearch" }, { name := some "Bash", parameters := some (J.obj []) }]

/-- Concrete message list with WebSearch tool traffic (witness data). -/
def wsMsgs : List CMessage :=
  [{ role := "assistant", content := .blocks
      [{ core := .toolUse (some "ws1") (some "WebSearch") none },
       { core := .toolUse (some "t1") (some "Bash") (some (J.obj [])) }] },
   { role := "user", content := .blocks
      [{ core := .toolResult (some "ws1") none (some (J.str "ignored")) },
       { core := .toolResult (some "t1") none (some (J.str "ok")) }] }]

/-! ## C8: sanitizer keyword stripping and (non-)idempotence -/

/-- No key of an object is one of the sanitizer's disallowed keywords
(non-objects carry no keys). -/
def noBannedKeys : J → Bool
  | .obj fs => fs.all (fun kv => !(STRIP_KEYS.contains kv.1))
  | _ => true

/-- The nested schemas one step below a value: the values of its
`properties` object, its `items` (elementwise for arrays), and — for a
schema array — its members. -/
def subschemas : J → List J
  | .obj fs =>
      (match getKey fs "properties" with
       | some (J.obj pfs) => pfs.map (fun kv => kv.2)
       | _ => []) ++
      (match getKey fs "items" with
       | some (J.arr xs) => xs
       | some v => [v]
       | none => [])
  | .arr xs => xs
  | _ => []

/-- A schema whose `anyOf` branch carries a type array: the branch is
copied verbatim after the type-array flattening step, so one sanitizer
pass leaves a type array behind. -/
def unionTypeSchema : J :=
  J.obj [("anyOf", J.arr [J.obj [("type", J.arr [J.str "string", J.str "null"])]])]

/-- A schema carrying a banned keyword (witness data). -/
def patSchema : J := J.obj [("type", J.str "string"), ("pattern", J.str "x")]

/-! ## Theorems -/

/-- C4: in the Codex dispatch loop, a `selectAccount` round with no account
and `waitMs > 60000` throws `RESOURCE_EXHAUSTED` immediately (no sleep is
recorded) with `resetMins = ceil(waitMs / 60000)` (the conjuncts bound
`resetMins` as the least multiple-of-60000 cover of `waitMs`); with
`0 < waitMs ≤ 60000` it sleeps `waitMs + 500` ms and retries without
consuming an attempt (the recursive occurrence keeps the same `attempt`
against the same budget `maxAttemptsFor count = max 3 (count+1)`). -/
theorem codex_dispatch_wait_handling
    (count a w : Nat) (rest : List StepOutcome)
    (ha : a < maxAttemptsFor count) :
    (60000 < w →
      codexDispatchLoop a (maxAttemptsFor count) (.noAccount w :: rest)
        = (.resourceExhausted ((w + 60000 - 1) / 60000), [])
      ∧ w ≤ 60000 * ((w + 60000 - 1) / 60000)
      ∧ 60000 * ((w + 60000 - 1) / 60000 - 1) < w)
    ∧ (0 < w → w ≤ 60000 →
      codexDispatchLoop a (maxAttemptsFor count) (.noAccount w :: rest)
        = ((codexDispatchLoop a (maxAttemptsFor count) rest).1,
           (w + 500) :: (codexDispatchLoop a (maxAttemptsFor count) rest).2))
    ∧ maxAttemptsFor count = max 3 (count + 1) := by
  refine ⟨fun h => ?_, fun h1 h2 => ?_, rfl⟩
  · have hnot : ¬ a ≥ maxAttemptsFor count := Nat.not_le.mpr ha
    refine ⟨?_, ?_, ?_⟩
    · simp only [codexDispatchLoop, if_neg hnot]
      rw [if_pos (by omega), if_pos (by omega)]
    · omega
    · omega
  · have hnot : ¬ a ≥ maxAttemptsFor count := Nat.not_le.mpr ha
    simp only [codexDispatchLoop, if_neg hnot]
    rw [if_pos (by omega), if_neg (by omega)]

/-- Witness for `codex_dispatch_wait_handling`: with one account
(budget `max 3 2 = 3`), a 120001 ms wait aborts at once with
`resetMins = 3 = ceil(120001/60000)`, and a 30000 ms wait sleeps
30500 ms and re-enters the loop with the attempt counter unchanged. -/
theorem codex_dispatch_wait_handling_witness :
    codexDispatchLoop 0 (maxAttemptsFor 1) [.noAccount 120001]
      = (.resourceExhausted 3, [])
    ∧ codexDispatchLoop 0 (maxAttemptsFor 1) [.noAccount 30000, .accountOk]
      = (.success, [30500]) := by
  constructor
  · exact ((codex_dispatch_wait_handling 1 0 120001 [] (by decide)).1 (by decide)).1
  · have h := (codex_dispatch_wait_handling 1 0 30000 [.accountOk] (by decide)).2.1
      (by decide) (by decide)
    rw [h]; rfl

/-- C5 counterexample: a 429 whose body is `\x7b"resets_in_seconds": 30\x7d`
(top level, no `error` member) and no `Retry-After` header yields a 30 s
cooldown, not the default cooldown the claim's final clause demands. -/
theorem retry_after_toplevel_counterexample :
    cooldownFor429 none (some (J.obj [("resets_in_seconds", J.num 30)])) 0 = 30000
    ∧ (30000 : Int) ≠ DEFAULT_COOLDOWN_MS := by
  exact ⟨rfl, by decide⟩

/-- C5 (amended): the 429 cooldown is resolved in priority order — a
positive `Retry-After` header gives `n * 1000` ms; otherwise the reset
fields are read from the body's `error` member when truthy, else from the
body's top level (`errSource`): a positive `resets_in_seconds` gives that
many seconds, else a non-zero `resets_at` with positive remaining time
gives the time remaining, else the default cooldown is used. -/
theorem retry_after_cooldown_priority (hdr : Option Int) (body : Option J) (now : Int) :
    (∀ s, hdr = some s → 0 < s → cooldownFor429 hdr body now = s * 1000)
    ∧ ((∀ s, hdr = some s → s ≤ 0) →
        (body = none → cooldownFor429 hdr body now = DEFAULT_COOLDOWN_MS)
        ∧ (∀ b, body = some b →
            (∀ n, jGet (errSource b) "resets_in_seconds" = some (J.num n) → 0 < n →
              cooldownFor429 hdr body now = n * 1000)
            ∧ ((∀ n, jGet (errSource b) "resets_in_seconds" = some (J.num n) → n ≤ 0) →
                (∀ t, jGet (errSource b) "resets_at" = some (J.num t) → t ≠ 0 →
                    0 < t * 1000 - now →
                  cooldownFor429 hdr body now = t * 1000 - now)
                ∧ ((∀ t, jGet (errSource b) "resets_at" = some (J.num t) →
                      t = 0 ∨ t * 1000 - now ≤ 0) →
                    cooldownFor429 hdr body now = DEFAULT_COOLDOWN_MS)))) := by
  have hpass : (∀ s, hdr = some s → s ≤ 0) →
      parseRetryAfterFn hdr body now = parseBodyReset body now := by
    intro h0
    cases hdr with
    | none => rfl
    | some s =>
        have hs := h0 s rfl
        simp [parseRetryAfterFn, if_neg (by omega : ¬ s > 0)]
  constructor
  · intro s hs hpos
    subst hs
    simp [cooldownFor429, parseRetryAfterFn, if_pos hpos]
  · intro h0
    constructor
    · intro hb
      subst hb
      simp [cooldownFor429, hpass h0, parseBodyReset]
    · intro b hb
      subst hb
      constructor
      · intro n hn hpos
        simp [cooldownFor429, hpass h0, parseBodyReset, hn, if_pos hpos]
      · intro hins
        have hfall : parseBodyReset (some b) now = parseResetsAt (errSource b) now := by
          simp only [parseBodyReset]
          cases hIS : jGet (errSource b) "resets_in_seconds" with
          | none => rfl
          | some v =>
              cases v with
              | num n =>
                  have := hins n hIS
                  simp [if_neg (by omega : ¬ n > 0)]
              | null => rfl
              | bool b' => rfl
              | str s => rfl
              | arr xs => rfl
              | obj fs => rfl
        constructor
        · intro t ht htz hpos
          have hlt : now < t * 1000 := by omega
          simp [cooldownFor429, hpass h0, hfall, parseResetsAt, ht, htz, hlt]
        · intro hat
          have : parseResetsAt (errSource b) now = none := by
            simp only [parseResetsAt]
            cases hT : jGet (errSource b) "resets_at" with
            | none => rfl
            | some v =>
                cases v with
                | num t =>
                    rcases hat t hT with h | h
                    · simp [h]
                    · by_cases hz : t = 0
                      · simp [hz]
                      · have hle : ¬ now < t * 1000 := by omega
                        simp [hz, hle]
                | null => rfl
                | bool b' => rfl
                | str s => rfl
                | arr xs => rfl
                | obj fs => rfl
          simp [cooldownFor429, hpass h0, hfall, this, DEFAULT_COOLDOWN_MS]

/-- Witness for `retry_after_cooldown_priority`: header `Retry-After: 42`
gives 42000 ms, and a headerless 429 with body
`\x7b"error": \x7b"resets_in_seconds": 30\x7d\x7d` gives 30000 ms. -/
theorem retry_after_cooldown_priority_witness :
    cooldownFor429 (some 42) none 0 = 42000
    ∧ cooldownFor429 none
        (some (J.obj [("error", J.obj [("resets_in_seconds", J.num 30)])])) 0 = 30000 := by
  constructor
  · exact (retry_after_cooldown_priority (some 42) none 0).1 42 rfl (by decide)
  · exact (((retry_after_cooldown_priority none
      (some (J.obj [("error", J.obj [("resets_in_seconds", J.num 30)])])) 0).2
      (fun s h => nomatch h)).2 _ rfl).1 30 rfl (by decide)

/-- Decomposition of `markFirst`: every element of the result is either an
untouched pool element or the image of one under the mutation. -/
theorem mem_markFirst {p : CAccount → Bool} {f : CAccount → CAccount} :
    ∀ {l : List CAccount} {x : CAccount}, x ∈ markFirst p f l →
      x ∈ l ∨ ∃ y ∈ l, x = f y := by
  intro l
  induction l with
  | nil => intro x hx; simp [markFirst] at hx
  | cons a rest ih =>
      intro x hx
      simp only [markFirst] at hx
      by_cases hpa : p a = true
      · rw [if_pos hpa] at hx
        rcases List.mem_cons.mp hx with h | h
        · exact Or.inr ⟨a, List.mem_cons_self a rest, h⟩
        · exact Or.inl (List.mem_cons_of_mem _ h)
      · rw [if_neg hpa] at hx
        rcases List.mem_cons.mp hx with h | h
        · exact Or.inl (h ▸ List.mem_cons_self a rest)
        · rcases ih h with h1 | ⟨y, hy, hxy⟩
          · exact Or.inl (List.mem_cons_of_mem _ h1)
          · exact Or.inr ⟨y, List.mem_cons_of_mem _ hy, hxy⟩

/-- After `markInvalid(tid, ...)` on a pool with pairwise-distinct ids in
which no other account uses `tid` as its email, every account with id
`tid` is latched invalid. -/
theorem latched_markInvalid (tid reason : String) (s : PoolState)
    (hND : s.accounts.Pairwise (fun x y => x.id ≠ y.id))
    (hEm : ∀ b ∈ s.accounts, b.email = some tid → b.id = tid) :
    latched tid (markInvalid tid reason s) := by
  intro x hx hxid
  simp only [markInvalid] at hx
  revert hND hEm x
  induction s.accounts with
  | nil => intro _ _ x hx; simp [markFirst] at hx
  | cons a rest ih =>
      intro hND hEm x hx hxid
      rw [List.pairwise_cons] at hND
      simp only [markFirst] at hx
      by_cases hpa : idOrEmailMatch tid a = true
      · rw [if_pos hpa] at hx
        rcases List.mem_cons.mp hx with h | h
        · rw [h]
        · exfalso
          have haid : a.id = tid := by
            rcases (Bool.or_eq_true _ _).mp hpa with h1 | h1
            · exact beq_iff_eq.mp h1
            · exact hEm a (List.mem_cons_self a rest) (beq_iff_eq.mp h1)
          exact hND.1 x h (by rw [haid, hxid])
      · rw [if_neg hpa] at hx
        rcases List.mem_cons.mp hx with h | h
        · exfalso
          have : ¬ (a.id == tid || a.email == some tid) = true := hpa
          rw [Bool.or_eq_true, not_or] at this
          exact this.1 (beq_iff_eq.mpr (h ▸ hxid))
        · exact ih hND.2 (fun b hb => hEm b (List.mem_cons_of_mem _ hb)) x h hxid

/-- The state after `selectAccount` holds the same accounts, except that the
selected one carries a fresh `lastUsed` stamp. -/
theorem select_state_mem {now : Int} {s : PoolState} {r : Option CAccount × Int}
    {s' : PoolState} (h : selectAccount now s = (r, s')) :
    ∀ x ∈ s'.accounts, x ∈ s.accounts ∨
      ∃ y ∈ s.accounts, x = { y with lastUsed := some now } := by
  unfold selectAccount at h
  by_cases h0 : s.accounts.length = 0
  · rw [if_pos h0] at h
    injection h with h1 h2
    subst h2
    exact fun x hx => Or.inl hx
  · rw [if_neg h0] at h
    rcases hf : (List.range s.accounts.length).find? (fun i =>
        accountSelectable now (s.accounts.getD ((s.activeIndex + i) % s.accounts.length) default))
      with _ | i
    · rw [hf] at h
      injection h with h1 h2
      subst h2
      exact fun x hx => Or.inl hx
    · rw [hf] at h
      injection h with h1 h2
      subst h2
      intro x hx
      simp only at hx
      rcases List.mem_or_eq_of_mem_set hx with h1 | h1
      · exact Or.inl h1
      · right
        have hidx : (s.activeIndex + i) % s.accounts.length < s.accounts.length :=
          Nat.mod_lt _ (Nat.pos_of_ne_zero h0)
        refine ⟨s.accounts.getD ((s.activeIndex + i) % s.accounts.length) default, ?_, h1⟩
        rw [List.getD_eq_getElem?_getD, List.getElem?_eq_getElem hidx]
        exact List.getElem_mem hidx

/-- A returned account comes from the pool, passed `accountSelectable`, and
differs from the pool element only in its `lastUsed` stamp. -/
theorem select_some_spec {now : Int} {s : PoolState} {a : CAccount} {w : Int}
    {s' : PoolState} (h : selectAccount now s = ((some a, w), s')) :
    ∃ b ∈ s.accounts, accountSelectable now b = true ∧
      a = { b with lastUsed := some now } := by
  unfold selectAccount at h
  by_cases h0 : s.accounts.length = 0
  · rw [if_pos h0] at h
    injection h with h1 h2
    simp at h1
  · rw [if_neg h0] at h
    rcases hf : (List.range s.accounts.length).find? (fun i =>
        accountSelectable now (s.accounts.getD ((s.activeIndex + i) % s.accounts.length) default))
      with _ | i
    · rw [hf] at h
      injection h with h1 h2
      simp at h1
    · rw [hf] at h
      injection h with h1 h2
      have hpred := List.find?_some hf
      have hidx : (s.activeIndex + i) % s.accounts.length < s.accounts.length :=
        Nat.mod_lt _ (Nat.pos_of_ne_zero h0)
      refine ⟨s.accounts.getD ((s.activeIndex + i) % s.accounts.length) default, ?_, ?_, ?_⟩
      · rw [List.getD_eq_getElem?_getD, List.getElem?_eq_getElem hidx]
        exact List.getElem_mem hidx
      · exact hpred
      · injection h1 with h3 h4
        injection h3 with h5
        exact h5.symm

/-- The `latched` predicate is preserved by every dispatch-path pool
operation: none of them clears `isInvalid`. -/
theorem latched_applyOp {tid : String} {s : PoolState} (h : latched tid s) :
    ∀ op : PoolOp, latched tid (applyOp s op) := by
  intro op
  cases op with
  | select now =>
      intro x hx hxid
      have hmem := @select_state_mem now s
        (selectAccount now s).1 (selectAccount now s).2 rfl
      rcases hmem x hx with h1 | ⟨y, hy, hxy⟩
      · exact h x h1 hxid
      · have hyid : y.id = tid := by rw [hxy] at hxid; exact hxid
        have hyinv := h y hy hyid
        rw [hxy]
        exact hyinv
  | rateLimit accountId w now =>
      intro x hx hxid
      simp only [applyOp, markRateLimited] at hx
      rcases mem_markFirst hx with h1 | ⟨y, hy, hxy⟩
      · exact h x h1 hxid
      · have hyid : y.id = tid := by rw [hxy] at hxid; exact hxid
        have hyinv := h y hy hyid
        rw [hxy]
        exact hyinv
  | invalid accountId r =>
      intro x hx hxid
      simp only [applyOp, markInvalid] at hx
      rcases mem_markFirst hx with h1 | ⟨y, hy, hxy⟩
      · exact h x h1 hxid
      · rw [hxy]

/-- `latched` is preserved by any dispatch-path operation sequence. -/
theorem latched_applyOps {tid : String} :
    ∀ (ops : List PoolOp) (s : PoolState), latched tid s → latched tid (applyOps s ops) := by
  intro ops
  induction ops with
  | nil => intro s h; exact h
  | cons op rest ih => intro s h; exact ih _ (latched_applyOp h op)

/-- C6: any account returned by `selectAccount` is enabled, not invalid and
not cooling (proved for every pool state, hence for every state reachable
through initialize / addAccount / selectAccount / markRateLimited /
markInvalid); and once `markInvalid(id, reason)` has been applied to a pool
with pairwise-distinct account ids, none of which appears as another
account's email, no later `selectAccount` — after any further sequence of
select / markRateLimited / markInvalid operations — returns an account with
that id; only the operator action `addAccount` clears the `invalid`
latch. -/
theorem cursor_select_active_and_invalid_latches :
    (∀ (now : Int) (s : PoolState) (a : CAccount) (w : Int) (s' : PoolState),
      selectAccount now s = ((some a, w), s') →
      a.enabled = true ∧ a.isInvalid = false ∧ ∀ t, a.cooldownUntil = some t → t ≤ now)
    ∧ (∀ (tid reason : String) (s : PoolState) (ops : List PoolOp) (now : Int)
        (a : CAccount) (w : Int) (s2 : PoolState),
        s.accounts.Pairwise (fun x y => x.id ≠ y.id) →
        (∀ b ∈ s.accounts, b.email = some tid → b.id = tid) →
        selectAccount now (applyOps (markInvalid tid reason s) ops) = ((some a, w), s2) →
        a.id ≠ tid) := by
  constructor
  · intro now s a w s' hsel
    rcases select_some_spec hsel with ⟨b, hb, hselb, hab⟩
    simp only [accountSelectable, Bool.and_eq_true, Bool.not_eq_true'] at hselb
    subst hab
    refine ⟨hselb.1.1, hselb.1.2, ?_⟩
    intro t ht
    have hcd := hselb.2
    simp only at ht
    rw [ht] at hcd
    simp only [cooldownFuture, decide_eq_false_iff_not] at hcd
    omega
  · intro tid reason s ops now a w s2 hND hEm hsel haid
    rcases select_some_spec hsel with ⟨b, hb, hselb, hab⟩
    have hlat := latched_applyOps ops _ (latched_markInvalid tid reason s hND hEm)
    have hbid : b.id = tid := by rw [hab] at haid; exact haid
    have hbinv := hlat b hb hbid
    simp [accountSelectable, hbinv] at hselb

/-- Witness for `cursor_select_active_and_invalid_latches`: at time 5 the
pool returns `alice` (not invalid), and after `markInvalid("alice")` the
next selection returns an account whose id is not `alice`. -/
theorem cursor_select_active_and_invalid_latches_witness :
    ({ cursorAcctA with lastUsed := some 5 } : CAccount).isInvalid = false
    ∧ ({ cursorAcctB with lastUsed := some 0 } : CAccount).id ≠ "alice" := by
  constructor
  · exact (cursor_select_active_and_invalid_latches.1 5 cursorPool0
      { cursorAcctA with lastUsed := some 5 } 0
      { accounts := [{ cursorAcctA with lastUsed := some 5 }, cursorAcctB], activeIndex := 1 }
      (by decide)).2.1
  · exact cursor_select_active_and_invalid_latches.2 "alice" "auth" cursorPool0 [] 0
      { cursorAcctB with lastUsed := some 0 } 0
      { accounts := [{ cursorAcctA with isInvalid := true, invalidReason := some "auth" },
                     { cursorAcctB with lastUsed := some 0 }], activeIndex := 0 }
      (by decide) (by decide) (by decide)

/-! ## Streaming adapter lemmas -/

/-- `ensureStarted` leaves `hasToolUse` untouched. -/
@[simp] theorem cxEnsure_hasToolUse (st : CxState) :
    (cxEnsureStarted st).1.hasToolUse = st.hasToolUse := by
  unfold cxEnsureStarted; split <;> rfl

/-- `ensureStarted` leaves `textBlockIndex` untouched. -/
@[simp] theorem cxEnsure_textBlockIndex (st : CxState) :
    (cxEnsureStarted st).1.textBlockIndex = st.textBlockIndex := by
  unfold cxEnsureStarted; split <;> rfl

/-- `ensureStarted` leaves `nextIndex` untouched. -/
@[simp] theorem cxEnsure_nextIndex (st : CxState) :
    (cxEnsureStarted st).1.nextIndex = st.nextIndex := by
  unfold cxEnsureStarted; split <;> rfl

/-- `ensureStarted` leaves `toolBlockMap` untouched. -/
@[simp] theorem cxEnsure_toolBlockMap (st : CxState) :
    (cxEnsureStarted st).1.toolBlockMap = st.toolBlockMap := by
  unfold cxEnsureStarted; split <;> rfl

/-- `ensureStarted` leaves `currentToolItemId` untouched. -/
@[simp] theorem cxEnsure_currentToolItemId (st : CxState) :
    (cxEnsureStarted st).1.currentToolItemId = st.currentToolItemId := by
  unfold cxEnsureStarted; split <;> rfl

/-- `ensureStarted` leaves `freshCtr` untouched. -/
@[simp] theorem cxEnsure_freshCtr (st : CxState) :
    (cxEnsureStarted st).1.freshCtr = st.freshCtr := by
  unfold cxEnsureStarted; split <;> rfl

/-- `ensureStarted` emits no `tool_use` block start. -/
@[simp] theorem cxEnsure_noToolStart (st : CxState) :
    (cxEnsureStarted st).2.any isToolUseStart = false := by
  unfold cxEnsureStarted; split <;> simp [isToolUseStart]

/-- `ensureStarted` emits no `message_delta`. -/
@[simp] theorem cxEnsure_noMessageDelta (st : CxState) :
    (cxEnsureStarted st).2.any isMessageDelta = false := by
  unfold cxEnsureStarted; split <;> simp [isMessageDelta]

/-- Per step, `hasToolUse` is set exactly when a `tool_use`
`content_block_start` is emitted. -/
theorem cxStep_hasToolUse (st : CxState) (e : CodexEvent) :
    (cxStep st e).1.hasToolUse = (st.hasToolUse || (cxStep st e).2.any isToolUseStart) := by
  cases e with
  | outputTextDelta d =>
      by_cases hd : d = ""
      · simp [cxStep, hd]
      · simp only [cxStep, if_neg hd, cxEnsure_textBlockIndex]
        rcases h : st.textBlockIndex with _ | idx <;>
          simp [h, isToolUseStart]
  | outputItemAddedFunctionCall itemId callId name =>
      simp only [cxStep]
      rcases h : (cxEnsureStarted st).1.textBlockIndex with _ | tIdx <;>
        simp [h, isToolUseStart]
  | outputItemAddedWebSearch itemId =>
      simp only [cxStep]
      split <;> simp
  | functionCallArgsDelta itemId d =>
      by_cases hd : d = ""
      · simp [cxStep, hd]
      · simp only [cxStep, if_neg hd]
        repeat' split
        all_goals simp [isToolUseStart]
  | outputItemDone => simp [cxStep]
  | completed i o => simp [cxStep]
  | other => simp [cxStep]

/-- No single step emits `message_delta`. -/
theorem cxStep_noMessageDelta (st : CxState) (e : CodexEvent) :
    (cxStep st e).2.any isMessageDelta = false := by
  cases e with
  | outputTextDelta d =>
      by_cases hd : d = ""
      · simp [cxStep, hd]
      · simp only [cxStep, if_neg hd, cxEnsure_textBlockIndex]
        rcases h : st.textBlockIndex with _ | idx <;>
          simp [h, isMessageDelta]
  | outputItemAddedFunctionCall itemId callId name =>
      simp only [cxStep]
      rcases h : (cxEnsureStarted st).1.textBlockIndex with _ | tIdx <;>
        simp [h, isMessageDelta]
  | outputItemAddedWebSearch itemId =>
      simp only [cxStep]
      split <;> simp
  | functionCallArgsDelta itemId d =>
      by_cases hd : d = ""
      · simp [cxStep, hd]
      · simp only [cxStep, if_neg hd]
        repeat' split
        all_goals simp [isMessageDelta]
  | outputItemDone => simp [cxStep]
  | completed i o => simp [cxStep]
  | other => simp [cxStep]

/-- Over a run, `hasToolUse` is set exactly when some `tool_use`
`content_block_start` was emitted. -/
theorem cxRun_hasToolUse (evs : List CodexEvent) :
    ∀ st : CxState, (cxRun st evs).1.hasToolUse
      = (st.hasToolUse || (cxRun st evs).2.any isToolUseStart) := by
  induction evs with
  | nil => intro st; simp [cxRun]
  | cons e rest ih =>
      intro st
      simp only [cxRun, List.any_append]
      rw [ih (cxStep st e).1, cxStep_hasToolUse]
      cases st.hasToolUse <;> cases (cxStep st e).2.any isToolUseStart <;> simp

/-- A run emits no `message_delta`. -/
theorem cxRun_noMessageDelta (evs : List CodexEvent) :
    ∀ st : CxState, (cxRun st evs).2.any isMessageDelta = false := by
  induction evs with
  | nil => intro st; simp [cxRun]
  | cons e rest ih =>
      intro st
      simp only [cxRun, List.any_append]
      rw [ih (cxStep st e).1, cxStep_noMessageDelta]
      rfl

/-- `ensureStarted` always leaves `started = true`. -/
@[simp] theorem cxEnsure_started (st : CxState) :
    (cxEnsureStarted st).1.started = true := by
  unfold cxEnsureStarted
  split
  · assumption
  · rfl

/-- `started` is monotone along a step. -/
theorem cxStep_started_mono (st : CxState) (e : CodexEvent) (h : st.started = true) :
    (cxStep st e).1.started = true := by
  cases e <;> simp only [cxStep] <;> repeat' split
  all_goals first
    | exact h
    | simp [cxEnsure_started]

/-- `started` is monotone along a run. -/
theorem cxRun_started_mono (evs : List CodexEvent) :
    ∀ st : CxState, st.started = true → (cxRun st evs).1.started = true := by
  induction evs with
  | nil => intro st h; exact h
  | cons e rest ih => intro st h; exact ih _ (cxStep_started_mono st e h)

/-- A step from a quiescent unstarted state either starts the message or
emits nothing and stays quiescent and unstarted. -/
theorem cxStep_unstarted (st : CxState) (e : CodexEvent)
    (hq : cxQuiet st) (h0 : st.started = false) :
    (cxStep st e).1.started = true ∨
    ((cxStep st e).2 = [] ∧ (cxStep st e).1.started = false ∧ cxQuiet (cxStep st e).1) := by
  obtain ⟨hq1, hq2, hq3, hq4⟩ := hq
  cases e with
  | outputTextDelta d =>
      by_cases hd : d = ""
      · exact Or.inr (by simp [cxStep, hd, h0, cxQuiet, hq1, hq2, hq3, hq4])
      · left
        simp only [cxStep, if_neg hd, cxEnsure_textBlockIndex]
        rcases st.textBlockIndex with _ | idx <;> simp [cxEnsure_started]
  | outputItemAddedFunctionCall itemId callId name =>
      left
      simp only [cxStep]
      split <;> simp [cxEnsure_started]
  | outputItemAddedWebSearch itemId =>
      right
      simp only [cxStep]
      split <;> simp [cxQuiet, h0, hq1, hq2, hq3, hq4]
  | functionCallArgsDelta itemId d =>
      right
      by_cases hd : d = ""
      · simp [cxStep, hd, h0, cxQuiet, hq1, hq2, hq3, hq4]
      · simp only [cxStep, if_neg hd, hq2, hq3]
        rcases itemId with _ | i <;>
          simp [cxMapGet, cxMapLastKey, cxQuiet, h0, hq1, hq2, hq3, hq4]
  | outputItemDone => exact Or.inr (by simp [cxStep, h0, cxQuiet, hq1, hq2, hq3, hq4])
  | completed i o => exact Or.inr (by simp [cxStep, h0, cxQuiet, hq1, hq2, hq3, hq4])
  | other => exact Or.inr (by simp [cxStep, h0, cxQuiet, hq1, hq2, hq3, hq4])

/-- A run that never starts the message emits nothing and stays
quiescent. -/
theorem cxRun_unstarted (evs : List CodexEvent) :
    ∀ st : CxState, st.started = false → cxQuiet st →
    (cxRun st evs).1.started = false →
    (cxRun st evs).2 = [] ∧ cxQuiet (cxRun st evs).1 := by
  induction evs with
  | nil => intro st _ hq _; exact ⟨rfl, hq⟩
  | cons e rest ih =>
      intro st h0 hq hfin
      rcases cxStep_unstarted st e hq h0 with hL | ⟨hout, hst, hq'⟩
      · exfalso
        have hT := cxRun_started_mono rest _ hL
        simp only [cxRun] at hfin
        rw [hfin] at hT
        cases hT
      · have hfin' : (cxRun (cxStep st e).1 rest).1.started = false := by
          simpa [cxRun] using hfin
        have hrest := ih (cxStep st e).1 hst hq' hfin'
        constructor
        · simp only [cxRun]
          rw [hout, hrest.1]
          rfl
        · simpa [cxRun] using hrest.2

/-- The stream epilogue never opens a tool-use block. -/
theorem cxEpilogue_noToolStart (st : CxState) :
    (cxEpilogue st).any isToolUseStart = false := by
  unfold cxEpilogue
  rw [List.any_append]
  repeat' split
  all_goals simp [isToolUseStart]

/-- The only `message_delta` in the epilogue carries
`hasToolUse ? "tool_use" : "end_turn"`. -/
theorem cxEpilogue_messageDelta (st : CxState) (r : String) (u : Nat)
    (h : AEvent.messageDelta r u ∈ cxEpilogue st) :
    r = (if st.hasToolUse then "tool_use" else "end_turn") ∧ u = st.outputTokens := by
  unfold cxEpilogue at h
  rw [List.mem_append] at h
  rcases h with h | h
  · exfalso
    revert h
    repeat' split
    all_goals simp
  · simp only [List.mem_cons, List.not_mem_nil, or_false] at h
    rcases h with h | h
    · exact ⟨(AEvent.messageDelta.injEq _ _ _ _).mp h |>.1,
        (AEvent.messageDelta.injEq _ _ _ _).mp h |>.2⟩
    · cases h

/-- `ensureMessageStart` always leaves `started = true`. -/
@[simp] theorem cuEnsure_started (st : CuState) :
    (cuEnsureStarted st).1.started = true := by
  unfold cuEnsureStarted
  split
  · assumption
  · rfl

/-- `ensureMessageStart` leaves `sawToolCall` untouched. -/
@[simp] theorem cuEnsure_sawToolCall (st : CuState) :
    (cuEnsureStarted st).1.sawToolCall = st.sawToolCall := by
  unfold cuEnsureStarted; split <;> rfl

/-- `ensureMessageStart` leaves `textBlockIndex` untouched. -/
@[simp] theorem cuEnsure_textBlockIndex (st : CuState) :
    (cuEnsureStarted st).1.textBlockIndex = st.textBlockIndex := by
  unfold cuEnsureStarted; split <;> rfl

/-- `ensureMessageStart` leaves `nextIndex` untouched. -/
@[simp] theorem cuEnsure_nextIndex (st : CuState) :
    (cuEnsureStarted st).1.nextIndex = st.nextIndex := by
  unfold cuEnsureStarted; split <;> rfl

/-- `ensureMessageStart` leaves `toolBlocks` untouched. -/
@[simp] theorem cuEnsure_toolBlocks (st : CuState) :
    (cuEnsureStarted st).1.toolBlocks = st.toolBlocks := by
  unfold cuEnsureStarted; split <;> rfl

/-- `ensureMessageStart` emits no `tool_use` block start. -/
@[simp] theorem cuEnsure_noToolStart (st : CuState) :
    (cuEnsureStarted st).2.any isToolUseStart = false := by
  unfold cuEnsureStarted; split <;> simp [isToolUseStart]

/-- `ensureMessageStart` emits no `message_delta`. -/
@[simp] theorem cuEnsure_noMessageDelta (st : CuState) :
    (cuEnsureStarted st).2.any isMessageDelta = false := by
  unfold cuEnsureStarted; split <;> simp [isMessageDelta]

/-- Per step: `sawToolCall` is set exactly when a `tool_use` block start is
emitted, under the invariant that a non-empty `toolBlocks` map implies
`sawToolCall` (which holds in every reachable state). -/
theorem cuStep_sawToolCall (st : CuState) (r : CursorResult)
    (hw : st.toolBlocks = [] ∨ st.sawToolCall = true) :
    ((cuStep st r).1.sawToolCall = (st.sawToolCall || (cuStep st r).2.any isToolUseStart))
    ∧ ((cuStep st r).1.toolBlocks = [] ∨ (cuStep st r).1.sawToolCall = true) := by
  rcases r with ⟨rtext, rtool, rerr⟩
  cases rtool with
  | some tc =>
      refine ⟨?_, ?_⟩
      · rcases hg : cuMapGet st.toolBlocks tc.id with _ | ⟨idx, closed⟩
        · simp only [cuStep]
          rcases ht : st.textBlockIndex with _ | tIdx <;>
            simp only [cuEnsure_textBlockIndex, cuEnsure_sawToolCall, cuEnsure_nextIndex,
              cuEnsure_toolBlocks, ht, hg] <;>
            repeat' split
          all_goals simp [isToolUseStart]
        · cases closed with
          | true =>
              simp only [cuStep]
              rcases ht : st.textBlockIndex with _ | tIdx <;>
                simp only [cuEnsure_textBlockIndex, cuEnsure_sawToolCall, cuEnsure_nextIndex,
                  cuEnsure_toolBlocks, ht, hg] <;>
                repeat' split
              all_goals simp_all [isToolUseStart]
          | false =>
              have hsaw : st.sawToolCall = true := by
                rcases hw with hw | hw
                · rw [hw] at hg; simp [cuMapGet] at hg
                · exact hw
              simp only [cuStep]
              rcases ht : st.textBlockIndex with _ | tIdx <;>
                simp only [cuEnsure_textBlockIndex, cuEnsure_sawToolCall, cuEnsure_nextIndex,
                  cuEnsure_toolBlocks, ht, hg] <;>
                repeat' split
              all_goals simp_all [isToolUseStart]
      · right
        simp only [cuStep]
        repeat' split
        all_goals simp
  | none =>
      cases rtext with
      | some t =>
          by_cases ht : t = ""
          · simp only [cuStep, ht]
            exact ⟨by simp, hw⟩
          · refine ⟨?_, ?_⟩
            · simp only [cuStep, if_neg ht]
              repeat' split
              all_goals simp [isToolUseStart, List.any_map, List.any_filter, Function.comp]
              all_goals
                intro x a b hmem hxeq hmatch
                rw [← hxeq] at hmatch
                simp [isToolUseStart] at hmatch
            · simp only [cuStep, if_neg ht]
              repeat' split
              all_goals
                rcases hw with hw | hw
                · left; simp [hw]
                · right; simp [hw]
      | none => exact ⟨by simp [cuStep], by simpa [cuStep] using hw⟩

/-- No single step emits `message_delta`. -/
theorem cuStep_noMessageDelta (st : CuState) (r : CursorResult) :
    (cuStep st r).2.any isMessageDelta = false := by
  rcases r with ⟨rtext, rtool, rerr⟩
  cases rtool with
  | some tc =>
      simp only [cuStep]
      repeat' split
      all_goals simp [isMessageDelta]
  | none =>
      cases rtext with
      | some t =>
          by_cases ht : t = ""
          · simp [cuStep, ht]
          · simp only [cuStep, if_neg ht]
            repeat' split
            all_goals simp [isMessageDelta, List.any_map, List.any_filter, Function.comp]
            all_goals
              intro x a b hmem hxeq
              rw [← hxeq]
      | none => simp [cuStep]

/-- Over a run, `sawToolCall` is set exactly when a `tool_use` block start
was emitted. -/
theorem cuRun_sawToolCall (results : List CursorResult) :
    ∀ st : CuState, (st.toolBlocks = [] ∨ st.sawToolCall = true) →
    ((cuRun st results).1.sawToolCall
       = (st.sawToolCall || (cuRun st results).2.any isToolUseStart))
    ∧ ((cuRun st results).1.toolBlocks = [] ∨ (cuRun st results).1.sawToolCall = true) := by
  induction results with
  | nil => intro st hw; exact ⟨by simp [cuRun], by simpa [cuRun] using hw⟩
  | cons r rest ih =>
      intro st hw
      have hstep := cuStep_sawToolCall st r hw
      have hrest := ih (cuStep st r).1 hstep.2
      constructor
      · simp only [cuRun, List.any_append]
        rw [hrest.1, hstep.1]
        cases st.sawToolCall <;> cases (cuStep st r).2.any isToolUseStart <;> simp
      · simpa [cuRun] using hrest.2

/-- A run emits no `message_delta`. -/
theorem cuRun_noMessageDelta (results : List CursorResult) :
    ∀ st : CuState, (cuRun st results).2.any isMessageDelta = false := by
  induction results with
  | nil => intro st; simp [cuRun]
  | cons r rest ih =>
      intro st
      simp only [cuRun, List.any_append]
      rw [ih (cuStep st r).1, cuStep_noMessageDelta]
      rfl

/-- The Cursor epilogue never opens a tool-use block. -/
theorem cuEpilogue_noToolStart (st : CuState) :
    (cuEpilogue st).any isToolUseStart = false := by
  unfold cuEpilogue
  repeat' split
  all_goals simp [isToolUseStart, List.any_map, Function.comp]
  all_goals
    intro x a b hmem hxeq
    rw [← hxeq]

/-- The only `message_delta` in the Cursor epilogue carries
`sawToolCall ? "tool_use" : "end_turn"`. -/
theorem cuEpilogue_messageDelta (st : CuState) (r : String) (u : Nat)
    (h : AEvent.messageDelta r u ∈ cuEpilogue st) :
    r = (if st.sawToolCall then "tool_use" else "end_turn") ∧ u = 0 := by
  unfold cuEpilogue at h
  rw [List.mem_append, List.mem_append] at h
  rcases h with (h | h) | h
  · exfalso
    revert h
    repeat' split
    all_goals simp
  · exfalso
    rcases List.mem_map.mp h with ⟨e, _, he⟩
    cases he
  · simp only [List.mem_cons, List.not_mem_nil, or_false] at h
    rcases h with h | h
    · exact ⟨(AEvent.messageDelta.injEq _ _ _ _).mp h |>.1,
        (AEvent.messageDelta.injEq _ _ _ _).mp h |>.2⟩
    · cases h

/-- C1: failing evaluation of the block-framing invariant.  When the Codex
backend stream opens two tool-use blocks, the adapter emits
`content_block_start(0)` and `content_block_start(1)` but a
`content_block_stop` only for index 1: at stream end only the text block
and the `currentToolItemId` block are closed, although the code's own
`output_item.done` comment promises closure when the next item opens and
the canonical stream contract (spec §3, §8.1) requires exactly one stop per
started block.  The first conjunct is the full emitted stream; the last two
count the starts and stops of block 0 before `message_delta`. -/
theorem codex_two_tool_blocks_missing_stop :
    streamCodexToAnthropic codexTwoToolStream
      = [.messageStart 0, .blockStart 0 (.toolUse "c1" "A"),
         .blockStart 1 (.toolUse "c2" "B"), .blockStop 1,
         .messageDelta "tool_use" 0, .messageStop]
    ∧ ((streamCodexToAnthropic codexTwoToolStream).takeWhile
        (fun e => !isMessageDelta e)).countP (isStartIdx 0) = 1
    ∧ ((streamCodexToAnthropic codexTwoToolStream).takeWhile
        (fun e => !isMessageDelta e)).countP (isStopIdx 0) = 0 := by
  exact ⟨rfl, rfl, rfl⟩

/-- C2: the stop-reason law holds for both streaming adapters: the
`message_delta` event's `stop_reason` is `"tool_use"` iff some emitted
`content_block_start` opened a `tool_use` block, and `"end_turn"` in every
other case. -/
theorem stream_stop_reason_law :
    (∀ (evs : List CodexEvent) (r : String) (u : Nat),
      AEvent.messageDelta r u ∈ streamCodexToAnthropic evs →
      ((r = "tool_use" ↔ (streamCodexToAnthropic evs).any isToolUseStart = true)
        ∧ (r = "tool_use" ∨ r = "end_turn")))
    ∧ (∀ (results : List CursorResult) (out : List AEvent) (r : String) (u : Nat),
      streamCursorToAnthropic results = Except.ok out →
      AEvent.messageDelta r u ∈ out →
      ((r = "tool_use" ↔ out.any isToolUseStart = true)
        ∧ (r = "tool_use" ∨ r = "end_turn"))) := by
  constructor
  · intro evs r u hmem
    have hsplit : streamCodexToAnthropic evs
        = (cxRun {} evs).2 ++ cxEpilogue (cxRun {} evs).1 := rfl
    rw [hsplit] at hmem
    rcases List.mem_append.mp hmem with h | h
    · exfalso
      have hfalse := cxRun_noMessageDelta evs {}
      have hm : isMessageDelta (AEvent.messageDelta r u) = true := rfl
      have hx := List.any_eq_true.mpr ⟨_, h, hm⟩
      rw [hfalse] at hx
      cases hx
    · have hr := cxEpilogue_messageDelta _ r u h
      have hany : (streamCodexToAnthropic evs).any isToolUseStart
          = (cxRun {} evs).1.hasToolUse := by
        rw [hsplit, List.any_append, cxEpilogue_noToolStart, Bool.or_false]
        have := cxRun_hasToolUse evs {}
        simpa using this.symm
      cases hT : (cxRun {} evs).1.hasToolUse with
      | true =>
          rw [hT] at hr
          simp at hr
          exact ⟨⟨fun _ => by rw [hany, hT], fun _ => hr.1⟩, Or.inl hr.1⟩
      | false =>
          rw [hT] at hr
          simp at hr
          refine ⟨⟨fun hc => ?_, fun hc => ?_⟩, Or.inr hr.1⟩
          · rw [hr.1] at hc
            exact absurd hc (by decide)
          · rw [hany, hT] at hc
            cases hc
  · intro results out r u hok hmem
    unfold streamCursorToAnthropic at hok
    split at hok
    · cases hok
    · injection hok with hout
      subst hout
      rcases List.mem_append.mp hmem with h | h
      · exfalso
        have hfalse := cuRun_noMessageDelta results {}
        have hm : isMessageDelta (AEvent.messageDelta r u) = true := rfl
        have hx := List.any_eq_true.mpr ⟨_, h, hm⟩
        rw [hfalse] at hx
        cases hx
      · have hr := cuEpilogue_messageDelta _ r u h
        have hinv := cuRun_sawToolCall results {} (Or.inl rfl)
        have hany : ((cuRun {} results).2 ++ cuEpilogue (cuRun {} results).1).any isToolUseStart
            = (cuRun {} results).1.sawToolCall := by
          rw [List.any_append, cuEpilogue_noToolStart, Bool.or_false]
          simpa using hinv.1.symm
        cases hT : (cuRun {} results).1.sawToolCall with
        | true =>
            rw [hT] at hr
            simp at hr
            exact ⟨⟨fun _ => by rw [hany, hT], fun _ => hr.1⟩, Or.inl hr.1⟩
        | false =>
            rw [hT] at hr
            simp at hr
            refine ⟨⟨fun hc => ?_, fun hc => ?_⟩, Or.inr hr.1⟩
            · rw [hr.1] at hc
              exact absurd hc (by decide)
            · rw [hany, hT] at hc
              cases hc

/-- Witness for `stream_stop_reason_law`: a text-only Codex stream ends
with `end_turn`, matching the absence of tool-use block starts; same for a
text-only Cursor frame stream. -/
theorem stream_stop_reason_law_witness :
    (("end_turn" = "tool_use" ↔
        (streamCodexToAnthropic [.outputTextDelta "hi"]).any isToolUseStart = true)
      ∧ ("end_turn" = "tool_use" ∨ "end_turn" = "end_turn"))
    ∧ (("end_turn" = "tool_use" ↔
        ([AEvent.messageStart 0, .blockStart 0 .text, .blockDelta 0 (.textDelta "hi"),
          .blockStop 0, .messageDelta "end_turn" 0, .messageStop]).any isToolUseStart = true)
      ∧ ("end_turn" = "tool_use" ∨ "end_turn" = "end_turn")) := by
  constructor
  · exact stream_stop_reason_law.1 [.outputTextDelta "hi"] "end_turn" 0 (by decide)
  · exact stream_stop_reason_law.2 [{ text := some "hi" }]
      [AEvent.messageStart 0, .blockStart 0 .text, .blockDelta 0 (.textDelta "hi"),
       .blockStop 0, .messageDelta "end_turn" 0, .messageStop] "end_turn" 0 rfl (by decide)

/-- C3 counterexample: on a backend stream yielding no usable content the
Cursor streaming adapter raises an error rather than synthesizing the
minimal canonical stream the claim promises for every adapter. -/
theorem cursor_empty_stream_raises :
    streamCursorToAnthropic [] = Except.error "No content received from Cursor response" := rfl

/-- C3 (amended): on a backend stream that never starts a message, the
Codex streaming adapter emits the minimal canonical stream —
`message_start`, an empty text `content_block_start`/`content_block_stop`
pair at index 0, `message_delta(end_turn)` and `message_stop` — while the
Cursor streaming adapter instead throws `"No content received from Cursor
response"` (which the dispatch loop treats as a retriable failure). -/
theorem empty_stream_minimal_or_raise :
    (∀ evs : List CodexEvent, (cxRun {} evs).1.started = false →
      streamCodexToAnthropic evs
        = [.messageStart 0, .blockStart 0 .text, .blockStop 0,
           .messageDelta "end_turn" (cxRun {} evs).1.outputTokens, .messageStop])
    ∧ (∀ results : List CursorResult, (cuRun {} results).1.started = false →
      streamCursorToAnthropic results
        = Except.error "No content received from Cursor response") := by
  constructor
  · intro evs h0
    have hq : cxQuiet ({} : CxState) := ⟨rfl, rfl, rfl, rfl⟩
    have hres := cxRun_unstarted evs {} rfl hq h0
    show (cxRun {} evs).2 ++ cxEpilogue (cxRun {} evs).1 = _
    rw [hres.1]
    have htu : (cxRun {} evs).1.hasToolUse = false := hres.2.2.2.2
    simp [cxEpilogue, h0, htu]
  · intro results h0
    unfold streamCursorToAnthropic
    simp [h0]

/-- Witness for `empty_stream_minimal_or_raise`: a Codex stream carrying
only a usage event yields the minimal stream (with the captured output
tokens); a Cursor stream of one empty frame result raises. -/
theorem empty_stream_minimal_or_raise_witness :
    streamCodexToAnthropic [.completed 5 7]
      = [.messageStart 0, .blockStart 0 .text, .blockStop 0,
         .messageDelta "end_turn" 7, .messageStop]
    ∧ streamCursorToAnthropic [{}]
      = Except.error "No content received from Cursor response" := by
  constructor
  · exact empty_stream_minimal_or_raise.1 [.completed 5 7] rfl
  · exact empty_stream_minimal_or_raise.2 [{}] rfl

/-- Shape of an encoded frame in front of a remainder. -/
theorem encodeFrame_cons (flags : Nat) (payload R : List Nat) :
    encodeFrame (flags, payload) ++ R
      = flags :: (be32 payload.length ++ (payload ++ R)) := by
  simp [encodeFrame, List.append_assoc]

/-- Length of the framed shape. -/
theorem frame_shape_length (flags L : Nat) (X : List Nat) :
    (flags :: (be32 L ++ X)).length = 5 + X.length := by
  simp [be32]
  omega

/-- The 4-byte length field decodes back to the payload length. -/
theorem readBE32_frame (flags L : Nat) (X : List Nat) (h : L < 4294967296) :
    readBE32 (flags :: (be32 L ++ X)) 1 = L := by
  simp [readBE32, be32, List.getD_cons_succ, List.getD_cons_zero]
  omega

/-- Dropping the 5 header bytes exposes the rest. -/
theorem frame_drop5 (flags L : Nat) (X : List Nat) :
    (flags :: (be32 L ++ X)).drop 5 = X := by
  simp [be32]

/-- Dropping a whole frame exposes the remainder. -/
theorem frame_drop_whole (flags : Nat) (payload R : List Nat) :
    (flags :: (be32 payload.length ++ (payload ++ R))).drop (5 + payload.length) = R := by
  rw [← List.drop_drop, frame_drop5, List.drop_left]

/-- Every error produced by the per-payload processing carries status 400
or 429. -/
theorem processPayloads_error_status (gz : List Nat → Option (List Nat))
    (pj : List Nat → Option J) (ex : List Nat → CursorResult) :
    ∀ (ps : List (Nat × List Nat)) (e : CursorApiError),
      processPayloads gz pj ex ps = .error e →
      e.statusCode = 400 ∨ e.statusCode = 429 := by
  intro ps
  induction ps with
  | nil => intro e he; cases he
  | cons p rest ih =>
      obtain ⟨flags, payload⟩ := p
      intro e he
      simp only [processPayloads] at he
      rcases hj : parseJsonErrorFn pj (decompressPayload gz payload flags) with _ | v
      · rw [hj] at he
        rcases hr : (ex (decompressPayload gz payload flags)).error with _ | em
        · rw [hr] at he
          rcases hp : processPayloads gz pj ex rest with e' | others
          · rw [hp] at he
            simp at he
            exact he ▸ ih e' hp
          · rw [hp] at he
            simp at he
        · rw [hr] at he
          injection he with he1
          rw [← he1]
          exact Or.inr rfl
      · rw [hj] at he
        injection he with he1
        rw [← he1]
        exact Or.inl rfl

/-- C10: `parseCursorResponseBuffer` is total (hence terminating), reads
only within the buffer, and decodes exactly the complete frames: on a
buffer made of well-formed frames followed by any truncated tail it
returns precisely the per-payload processing of those frames, silently
ignoring the tail; every raised error is one of the two deliberate
status-coded throws (400 embedded-JSON error, 429 decoder-reported error);
and a gzip-flagged payload whose decompression fails is used
uncompressed. -/
theorem parse_cursor_buffer_exact_frames
    (gz : List Nat → Option (List Nat)) (pj : List Nat → Option J)
    (ex : List Nat → CursorResult) (fs : List (Nat × List Nat)) (junk : List Nat)
    (hfs : ∀ f ∈ fs, f.2.length < 4294967296)
    (hjunk : junk.length < 5 ∨ junk.length < 5 + readBE32 junk 1) :
    parseCursorResponseBuffer gz pj ex (encodeFrames fs ++ junk)
      = processPayloads gz pj ex fs
    ∧ (∀ e, parseCursorResponseBuffer gz pj ex (encodeFrames fs ++ junk) = .error e →
        e.statusCode = 400 ∨ e.statusCode = 429)
    ∧ (∀ p flag, gz p = none → decompressPayload gz p flag = p) := by
  have hmain : parseCursorResponseBuffer gz pj ex (encodeFrames fs ++ junk)
      = processPayloads gz pj ex fs := by
    induction fs with
    | nil =>
        show parseCursorResponseBuffer gz pj ex ([] ++ junk) = .ok []
        rw [List.nil_append]
        by_cases h5 : junk.length < 5
        · unfold parseCursorResponseBuffer
          rw [dif_pos h5]
        · rcases hjunk with h | h
          · exact absurd h h5
          · unfold parseCursorResponseBuffer
            rw [dif_neg h5]
            simp only []
            rw [dif_pos (by omega : 5 + readBE32 junk 1 > junk.length)]
    | cons f rest ih =>
        obtain ⟨flags, payload⟩ := f
        have hlt : payload.length < 4294967296 := hfs _ (List.mem_cons_self _ _)
        have ih' := ih (fun g hg => hfs g (List.mem_cons_of_mem _ hg))
        show parseCursorResponseBuffer gz pj ex
            ((encodeFrame (flags, payload) ++ encodeFrames rest) ++ junk)
          = processPayloads gz pj ex ((flags, payload) :: rest)
        rw [List.append_assoc, encodeFrame_cons]
        have hlen := frame_shape_length flags payload.length (payload ++ (encodeFrames rest ++ junk))
        unfold parseCursorResponseBuffer
        rw [dif_neg (by rw [hlen]; omega)]
        simp only []
        rw [readBE32_frame flags payload.length _ hlt]
        rw [dif_neg (by rw [hlen, List.length_append]; omega)]
        simp only [List.getD_cons_zero, frame_drop5, List.take_left, frame_drop_whole]
        rw [ih']
        rfl
  refine ⟨hmain, ?_, ?_⟩
  · intro e he
    rw [hmain] at he
    exact processPayloads_error_status gz pj ex fs e he
  · intro p flag hgz
    unfold decompressPayload
    repeat' split
    all_goals simp_all

/-- Witness for `parse_cursor_buffer_exact_frames`: one complete frame
(flag 0, payload `[65]`) followed by a one-byte truncated tail decodes to
exactly that frame's result, and a gzip-flagged payload that fails to
decompress is used uncompressed. -/
theorem parse_cursor_buffer_exact_frames_witness :
    parseCursorResponseBuffer gzNone pjNone exText (encodeFrames [(0, [65])] ++ [9])
      = Except.ok [{ text := some "A" }]
    ∧ decompressPayload gzNone [1, 2, 3] 1 = [1, 2, 3] := by
  constructor
  · have h := (parse_cursor_buffer_exact_frames gzNone pjNone exText [(0, [65])] [9]
      (by intro f hf; simp at hf; rw [hf]; decide) (Or.inl (by decide))).1
    rw [h]
    rfl
  · exact (parse_cursor_buffer_exact_frames gzNone pjNone exText [] []
      (by intro f hf; cases hf) (Or.inl (by decide))).2.2 [1, 2, 3] 1 rfl

/-! ## C9: empty schemas through the tool pipeline -/

/-- A raw schema that is not a JS object/array (absent values are handled
by `sanitizeSchemaOpt`) takes the fallback branch of `sanitizeSchema`. -/
theorem sanitizeSchemaF_nonObject (fuel : Nat) (s : J) (h : isObjLike s = false) :
    sanitizeSchemaF fuel s = reasonSchema := by
  cases fuel with
  | zero => rfl
  | succ f => cases s <;> simp_all [sanitizeSchemaF, isObjLike]

/-- A literal `\x7b\x7d` input schema does NOT produce the reason schema:
it survives `sanitizeSchema` unchanged and `normalizeFunctionParameters`
only adds `type`/`properties` defaults, so the wire entry carries
`\x7btype: 'object', properties: \x7b\x7d\x7d`, which differs from the
reason schema (no `required`, no `reason` property). -/
theorem empty_object_schema_counterexample :
    codexFunctionTool { name := some "Bash", parameters := some (J.obj []) } =
      CodexTool.function (some "Bash") none
        (J.obj [("type", J.str "object"), ("properties", J.obj [])]) ∧
    J.obj [("type", J.str "object"), ("properties", J.obj [])] ≠ reasonSchema := by
  refine ⟨?_, ?_⟩
  · show CodexTool.function (some "Bash") none
      (normalizeFunctionParameters (sanitizeSchemaF (jSize (J.obj [])) (J.obj []))) =
      CodexTool.function (some "Bash") none
        (J.obj [("type", J.str "object"), ("properties", J.obj [])])
    rw [show jSize (J.obj []) = 1 from by simp [jSize, jSizeFields]]
    rfl
  · intro h
    exact absurd (congrArg (fun v => jKind (jGet v "required")) h) (by decide)

/-- C9 (amended): for every tool declaration whose raw schema is absent or
not a JS object/array, the `parameters` of the generated wire entry equal
the reason schema `\x7btype: 'object', properties: \x7breason:
\x7btype: 'string', ...\x7d\x7d, required: ['reason']\x7d`; a literal
`\x7b\x7d` schema instead yields `\x7btype: 'object', properties:
\x7b\x7d\x7d` (see the counterexample). -/
theorem empty_schema_reason_parameters (t : ToolDecl)
    (h : rawSchemaOf t = none ∨ ∃ s, rawSchemaOf t = some s ∧ isObjLike s = false) :
    codexFunctionTool t = CodexTool.function t.name t.description reasonSchema := by
  have hn : normalizeFunctionParameters (sanitizeSchemaOpt (rawSchemaOf t)) = reasonSchema := by
    rcases h with h | ⟨s, hs, hno⟩
    · rw [h]
      rfl
    · rw [hs]
      show normalizeFunctionParameters (sanitizeSchemaF (jSize s) s) = reasonSchema
      rw [sanitizeSchemaF_nonObject (jSize s) s hno]
      rfl
  show CodexTool.function t.name t.description
      (normalizeFunctionParameters (sanitizeSchemaOpt (rawSchemaOf t))) =
    CodexTool.function t.name t.description reasonSchema
  rw [hn]

/-- Witness: a declaration with no schema fields at all gets the reason
schema as its parameters. -/
theorem empty_schema_reason_parameters_witness :
    codexFunctionTool { name := some "Write" } =
      CodexTool.function (some "Write") none reasonSchema :=
  empty_schema_reason_parameters { name := some "Write" } (Or.inl rfl)

/-- Entries accumulated by the counter-threading folds of the converter
come from the initial accumulator or from one step's output. -/
theorem mem_foldl_append {α γ : Type} (f : Nat → α → Nat × List γ)
    (l : List α) (init : Nat × List γ) :
    ∀ e ∈ (l.foldl (fun acc b => ((f acc.1 b).1, acc.2 ++ (f acc.1 b).2)) init).2,
      e ∈ init.2 ∨ ∃ b ∈ l, ∃ c, e ∈ (f c b).2 := by
  induction l generalizing init with
  | nil => intro e he; exact Or.inl he
  | cons b bs ih =>
      intro e he
      rcases ih ((f init.1 b).1, init.2 ++ (f init.1 b).2) e he with h | ⟨b', hb', c, hc⟩
      · rcases List.mem_append.mp h with h | h
        · exact Or.inl h
        · exact Or.inr ⟨b, List.mem_cons_self b bs, init.1, h⟩
      · exact Or.inr ⟨b', List.mem_cons_of_mem b hb', c, hc⟩

/-- No `function_call` entry emitted for a single block carries a
WebSearch tool name (WebSearch `tool_use` blocks are skipped outright). -/
theorem blockToolEntries_no_ws (wsIds : List (Option String)) (ctr : Nat) (b : RawBlock) :
    ∀ e ∈ (blockToolEntries wsIds ctr b).2, ∀ cid n args,
      e = CodexInput.functionCall cid n args → n ≠ "WebSearch" ∧ n ≠ "web_search" := by
  obtain ⟨cc, core⟩ := b
  intro e he cid n args heq
  subst heq
  cases core with
  | toolUse bid bname binput =>
      by_cases hws : isWebSearchName bname = true
      · simp [blockToolEntries, hws] at he
      · simp [blockToolEntries, hws] at he
        simp [isWebSearchName] at hws
        cases bname with
        | none =>
            have hn : n = "" := by simp_all
            subst hn
            exact ⟨by decide, by decide⟩
        | some s =>
            have hn : n = s := by simp_all
            subst hn
            exact ⟨fun hh => hws.1 (congrArg some hh), fun hh => hws.2 (congrArg some hh)⟩
  | toolResult tuid bid bcontent =>
      by_cases hin : tuid ∈ wsIds
      · simp [blockToolEntries, hin] at he
      · simp [blockToolEntries, hin] at he
  | text t => simp [blockToolEntries] at he
  | thinking => simp [blockToolEntries] at he
  | other => simp [blockToolEntries] at he

/-- Every `input` entry a message contributes is either a text message or
an output of `blockToolEntries` on one of its blocks. -/
theorem msgInput_entries (wsIds : List (Option String)) (ctr : Nat) (m : CMessage)
    (e : CodexInput) (he : e ∈ (msgInput wsIds ctr m).2) :
    (∃ role parts, e = CodexInput.message role parts) ∨
    (∃ (b : RawBlock) (c : Nat), e ∈ (blockToolEntries wsIds c b).2) := by
  obtain ⟨role, content⟩ := m
  have htext : ∀ x ∈ (if role = "user" || role = "assistant" then
        (if (msgTextParts role content).length > 0
         then [CodexInput.message role (msgTextParts role content)] else [])
       else ([] : List CodexInput)),
      ∃ r parts, x = CodexInput.message r parts := by
    intro x hx
    split at hx
    · split at hx
      · exact ⟨role, msgTextParts role content, List.mem_singleton.mp hx⟩
      · cases hx
    · cases hx
  cases content with
  | blocks bs =>
      simp only [msgInput] at he
      split at he
      · simp only at he
        rcases List.mem_append.mp he with h | h
        · exact Or.inl (htext e h)
        · rcases mem_foldl_append (blockToolEntries wsIds) bs (ctr, []) e h with h0 | ⟨b, _, c, hc⟩
          · simp at h0
          · exact Or.inr ⟨b, c, hc⟩
      · exact Or.inl (htext e he)
  | str s =>
      simp only [msgInput] at he
      exact Or.inl (htext e he)
  | other =>
      simp only [msgInput] at he
      exact Or.inl (htext e he)

/-- Every generated `input` entry is a text message or an output of
`blockToolEntries` on some block. -/
theorem codexInput_entries (msgs : List CMessage) (e : CodexInput)
    (he : e ∈ codexInput msgs) :
    (∃ role parts, e = CodexInput.message role parts) ∨
    (∃ (b : RawBlock) (c : Nat), e ∈ (blockToolEntries (webSearchToolUseIds msgs) c b).2) := by
  simp only [codexInput] at he
  rcases mem_foldl_append (msgInput (webSearchToolUseIds msgs)) msgs (0, []) e he with h0 | ⟨m, _, c, hc⟩
  · simp at h0
  · exact msgInput_entries (webSearchToolUseIds msgs) c m e hc

/-- C7: when the tools list declares WebSearch (or web_search), the wire
`tools` array holds exactly one native `\x7btype: 'web_search'\x7d` entry
and no function entry with a WebSearch name; the generated `input` holds
no `function_call` named WebSearch/web_search; and a `tool_result` block
whose `tool_use_id` is a collected WebSearch id — like a WebSearch
`tool_use` block itself — contributes no entry at all. -/
theorem websearch_native_replacement (msgs : List CMessage) (tools : List ToolDecl)
    (h : tools.any (fun t => isWebSearchName t.name) = true) :
    ((convertAnthropicToCodexRequest msgs tools).tools.countP
        (fun e => isWebSearchTool e) = 1) ∧
    (∀ e ∈ (convertAnthropicToCodexRequest msgs tools).tools,
        ∀ n d p, e = CodexTool.function n d p → isWebSearchName n = false) ∧
    (∀ e ∈ (convertAnthropicToCodexRequest msgs tools).input,
        ∀ cid n args, e = CodexInput.functionCall cid n args →
          n ≠ "WebSearch" ∧ n ≠ "web_search") ∧
    (∀ (b : RawBlock) (tuid bid : Option String) (c : Option J) (ctr : Nat),
        b.core = CBlock.toolResult tuid bid c →
        (webSearchToolUseIds (cleanCacheControl msgs)).contains tuid = true →
        blockToolEntries (webSearchToolUseIds (cleanCacheControl msgs)) ctr b = (ctr, [])) ∧
    (∀ (b : RawBlock) (bid bname : Option String) (binput : Option J) (ctr : Nat),
        b.core = CBlock.toolUse bid bname binput →
        isWebSearchName bname = true →
        blockToolEntries (webSearchToolUseIds (cleanCacheControl msgs)) ctr b = (ctr, [])) := by
  have hne : tools.isEmpty = false := by
    cases tools with
    | nil => simp at h
    | cons t ts => rfl
  refine ⟨?_, ?_, ?_, ?_, ?_⟩
  · simp only [convertAnthropicToCodexRequest, codexTools, hne, h]
    simp only [Bool.false_eq_true, if_false, if_true]
    rw [List.countP_append, List.countP_map]
    simp [isWebSearchTool, codexFunctionTool, Function.comp]
  · intro e hmem n d p heq
    subst heq
    simp only [convertAnthropicToCodexRequest, codexTools, hne, h] at hmem
    simp only [Bool.false_eq_true, if_false, if_true] at hmem
    rcases List.mem_append.mp hmem with hl | hr
    · simp at hl
    · rcases List.mem_map.mp hr with ⟨t, ht, heq2⟩
      have hf := (List.mem_filter.mp ht).2
      simp only [codexFunctionTool, CodexTool.function.injEq] at heq2
      obtain ⟨hn, -, -⟩ := heq2
      subst hn
      simp only [Bool.and_eq_true, Bool.not_eq_true'] at hf
      simp [isWebSearchName, hf.1.1, hf.1.2]
  · intro e hmem cid n args heq
    have hm : e ∈ codexInput (cleanCacheControl msgs) := hmem
    rcases codexInput_entries (cleanCacheControl msgs) e hm with ⟨r, parts, hmsg⟩ | ⟨b, c, hb⟩
    · rw [heq] at hmsg; cases hmsg
    · exact blockToolEntries_no_ws _ c b e hb cid n args heq
  · intro b tuid bid c ctr hb hin
    obtain ⟨cc, core⟩ := b
    simp only at hb
    subst hb
    have hin' : tuid ∈ webSearchToolUseIds (cleanCacheControl msgs) := by
      simpa using hin
    simp [blockToolEntries, hin']
  · intro b bid bname binput ctr hb hws
    obtain ⟨cc, core⟩ := b
    simp only at hb
    subst hb
    simp [blockToolEntries, hws]

/-- Witness: the concrete tool list with a WebSearch declaration yields
exactly one native web_search wire entry. -/
theorem websearch_native_replacement_witness :
    (convertAnthropicToCodexRequest wsMsgs wsTools).tools.countP
        (fun e => isWebSearchTool e) = 1 :=
  (websearch_native_replacement wsMsgs wsTools (by decide)).1

/-- Membership after a JS assignment. -/
theorem mem_setKey {fs : List (String × J)} {k : String} {v : J} {p : String × J}
    (h : p ∈ setKey fs k v) : p = (k, v) ∨ p ∈ fs := by
  unfold setKey at h
  split at h
  · rcases List.mem_map.mp h with ⟨q, hq, heq⟩
    by_cases hk : (q.1 == k) = true
    · rw [if_pos hk] at heq
      exact Or.inl heq.symm
    · rw [if_neg hk] at heq
      exact Or.inr (heq ▸ hq)
  · rcases List.mem_append.mp h with h1 | h1
    · exact Or.inr h1
    · exact Or.inl (List.mem_singleton.mp h1)

/-- Membership after a JS `delete`. -/
theorem mem_delKey {fs : List (String × J)} {k : String} {p : String × J}
    (h : p ∈ delKey fs k) : p ∈ fs ∧ p.1 ≠ k := by
  unfold delKey at h
  have h2 := List.mem_filter.mp h
  refine ⟨h2.1, ?_⟩
  intro heq
  rw [heq] at h2
  simp at h2

/-- An entry of `Object.fromEntries`-style assembly comes from the entry
list. -/
theorem mem_objFromEntries {l : List (String × J)} {p : String × J}
    (h : p ∈ objFromEntries l) : p ∈ l := by
  have hgen : ∀ (l : List (String × J)) (acc : List (String × J)),
      p ∈ l.foldl (fun acc kv => setKey acc kv.1 kv.2) acc → p ∈ acc ∨ p ∈ l := by
    intro l
    induction l with
    | nil => intro acc h; exact Or.inl h
    | cons kv l ih =>
        intro acc h
        rcases ih (setKey acc kv.1 kv.2) h with h1 | h1
        · rcases mem_setKey h1 with h2 | h2
          · exact Or.inr (by rw [h2]; exact List.mem_cons_self kv l)
          · exact Or.inl h2
        · exact Or.inr (List.mem_cons_of_mem kv h1)
  rcases hgen l [] h with h1 | h1
  · cases h1
  · exact h1

/-- Deleting a key list removes every listed key. -/
theorem mem_foldl_delKey : ∀ (ks : List String) (fs : List (String × J)) (p : String × J),
    p ∈ ks.foldl delKey fs → p ∈ fs ∧ ∀ k ∈ ks, p.1 ≠ k := by
  intro ks
  induction ks with
  | nil => intro fs p h; exact ⟨h, by intro k hk; cases hk⟩
  | cons k ks ih =>
      intro fs p h
      rcases ih (delKey fs k) p h with ⟨h1, h2⟩
      rcases mem_delKey h1 with ⟨h3, h4⟩
      refine ⟨h3, ?_⟩
      intro k' hk'
      rcases List.mem_cons.mp hk' with heq | hk'
      · rw [heq]; exact h4
      · exact h2 k' hk'

/-- `contains` is false when the element differs from every member. -/
theorem contains_false_of_forall {l : List String} {a : String}
    (h : ∀ k ∈ l, a ≠ k) : l.contains a = false := by
  induction l with
  | nil => rfl
  | cons k ks ih =>
      have h1 : (a == k) = false := by
        have := h k (List.mem_cons_self k ks)
        simp [this]
      have h2 : ks.contains a = false :=
        ih (fun k' hk' => h k' (List.mem_cons_of_mem k hk'))
      simp only [List.contains_cons, Bool.or_eq_false_iff]
      exact ⟨h1, h2⟩

/-- Keys surviving the STRIP loop are not banned. -/
theorem mem_stripBanned {fs : List (String × J)} {p : String × J}
    (h : p ∈ stripBanned fs) : p ∈ fs ∧ STRIP_KEYS.contains p.1 = false := by
  rcases mem_foldl_delKey STRIP_KEYS fs p h with ⟨h1, h2⟩
  exact ⟨h1, contains_false_of_forall h2⟩

/-- Lookup misses when no key matches. -/
theorem getKey_none_of_hasKey_false (fs : List (String × J)) (k : String)
    (h : hasKey fs k = false) : getKey fs k = none := by
  unfold getKey
  rw [List.find?_eq_none.mpr]
  · rfl
  · intro a ha hpa
    have : hasKey fs k = true := by
      unfold hasKey
      exact List.any_eq_true.mpr ⟨a, ha, hpa⟩
    rw [this] at h
    cases h

/-- Lookup after an assignment of the same key. -/
theorem getKey_setKey_same (fs : List (String × J)) (k : String) (v : J) :
    getKey (setKey fs k v) k = some v := by
  unfold setKey
  split
  case isTrue h =>
    induction fs with
    | nil => simp [hasKey] at h
    | cons q fs ih =>
        by_cases hq : (q.1 == k) = true
        · simp only [List.map_cons, if_pos hq]
          unfold getKey
          rw [List.find?_cons_of_pos]
          · rfl
          · exact beq_self_eq_true k
        · have h' : hasKey fs k = true := by
            unfold hasKey at h ⊢
            rcases List.any_eq_true.mp h with ⟨a, ha, hpa⟩
            rcases List.mem_cons.mp ha with heq | ha'
            · rw [heq] at hpa; exact absurd hpa hq
            · exact List.any_eq_true.mpr ⟨a, ha', hpa⟩
          simp only [List.map_cons, if_neg hq]
          unfold getKey
          rw [List.find?_cons_of_neg]
          · exact ih h'
          · exact hq
  case isFalse h =>
    have hb : hasKey fs k = false := by revert h; cases hasKey fs k <;> simp
    have hnone : (fs.find? (fun kv => kv.1 == k)) = none := by
      have hg := getKey_none_of_hasKey_false fs k hb
      unfold getKey at hg
      exact Option.map_eq_none'.mp hg
    unfold getKey
    rw [List.find?_append, hnone]
    simp [List.find?]

/-- Lookup of a different key after an assignment. -/
theorem getKey_setKey_other (fs : List (String × J)) (k k' : String) (v : J)
    (h : k' ≠ k) : getKey (setKey fs k v) k' = getKey fs k' := by
  have hkk : (k == k') = false := beq_eq_false_iff_ne.mpr (Ne.symm h)
  unfold setKey
  split
  case isTrue hh =>
    clear hh
    induction fs with
    | nil => rfl
    | cons q fs ih =>
        simp only [List.map_cons]
        by_cases hq : (q.1 == k) = true
        · have hqk : (q.1 == k') = false := by
            have hq1 : q.1 = k := by simpa using hq
            rw [hq1]; exact hkk
          rw [if_pos hq]
          unfold getKey
          rw [List.find?_cons_of_neg, List.find?_cons_of_neg]
          · exact ih
          · simp [hqk]
          · simp [hkk]
        · rw [if_neg hq]
          unfold getKey
          by_cases hq' : (q.1 == k') = true
          · rw [List.find?_cons_of_pos, List.find?_cons_of_pos]
            · exact hq'
            · exact hq'
          · rw [List.find?_cons_of_neg, List.find?_cons_of_neg]
            · exact ih
            · simp [hq']
            · simp [hq']
  case isFalse hh =>
    unfold getKey
    rw [List.find?_append]
    have hsing : List.find? (fun kv => kv.1 == k') [(k, v)] = none := by
      simp [List.find?, hkk]
    rw [hsing]
    simp

/-- Lookup of a different key after a delete. -/
theorem getKey_delKey_other (fs : List (String × J)) (k k' : String)
    (h : k' ≠ k) : getKey (delKey fs k) k' = getKey fs k' := by
  induction fs with
  | nil => rfl
  | cons q fs ih =>
      by_cases hq : (q.1 == k) = true
      · have hqk : (q.1 == k') = false := by
          have hq1 : q.1 = k := by simpa using hq
          rw [hq1]
          exact beq_eq_false_iff_ne.mpr (Ne.symm h)
        have hdel : delKey (q :: fs) k = delKey fs k := by
          simp [delKey, List.filter_cons, bne, hq]
        rw [hdel, ih]
        unfold getKey
        rw [List.find?_cons_of_neg]
        simp [hqk]
      · have hf : (q.1 == k) = false := by
          revert hq
          cases q.1 == k <;> simp
        have hdel : delKey (q :: fs) k = q :: delKey fs k := by
          simp [delKey, List.filter_cons, bne, hf]
        rw [hdel]
        by_cases hq' : (q.1 == k') = true
        · unfold getKey
          rw [List.find?_cons_of_pos, List.find?_cons_of_pos]
          · exact hq'
          · exact hq'
        · unfold getKey
          rw [List.find?_cons_of_neg, List.find?_cons_of_neg]
          · exact ih
          · simp [hq']
          · simp [hq']

/-- `intersectRequired` only touches the `required` key. -/
theorem getKey_intersectRequired_other (fs : List (String × J)) (k : String)
    (h : k ≠ "required") : getKey (intersectRequired fs) k = getKey fs k := by
  unfold intersectRequired
  repeat' (first | split | dsimp only)
  all_goals first
    | rfl
    | exact getKey_setKey_other _ _ _ _ h
    | exact getKey_delKey_other _ _ _ h

/-- `recurseItems` only touches the `items` key. -/
theorem getKey_recurseItems_other (f : J → J) (fs : List (String × J)) (k : String)
    (h : k ≠ "items") : getKey (recurseItems f fs) k = getKey fs k := by
  unfold recurseItems
  repeat' split
  all_goals first
    | rfl
    | exact getKey_setKey_other _ _ _ _ h

/-- `recurseProps` with no `properties` key is the identity. -/
theorem recurseProps_eq_of_none (f : J → J) (fs : List (String × J))
    (h : getKey fs "properties" = none) : recurseProps f fs = fs := by
  unfold recurseProps
  rw [h]

/-- `recurseProps` skips non-object `properties`. -/
theorem recurseProps_eq_of_skip (f : J → J) (fs : List (String × J)) (v : J)
    (h : getKey fs "properties" = some v)
    (h2 : (jTruthy v && isObjLike v) = false) : recurseProps f fs = fs := by
  unfold recurseProps
  rw [h]
  simp [h2]

/-- `recurseProps` rebuilds an object-shaped `properties` from sanitized
values. -/
theorem recurseProps_eq_of_rec (f : J → J) (fs : List (String × J)) (v : J)
    (h : getKey fs "properties" = some v)
    (h2 : (jTruthy v && isObjLike v) = true) :
    recurseProps f fs = setKey fs "properties"
      (J.obj (objFromEntries ((jOwnEntries v).map (fun kv => (kv.1, f kv.2))))) := by
  unfold recurseProps
  rw [h]
  simp [h2]

/-- Entries of `intersectRequired` output. -/
theorem mem_intersectRequired {fs : List (String × J)} {p : String × J}
    (h : p ∈ intersectRequired fs) : p.1 = "required" ∨ p ∈ fs := by
  unfold intersectRequired at h
  repeat' (first | split at h | dsimp only at h)
  all_goals first
    | exact Or.inr h
    | exact Or.inr (mem_delKey h).1
    | (rcases mem_setKey h with h1 | h1
       · exact Or.inl (by rw [h1])
       · exact Or.inr h1)

/-- Entries of `recurseItems` output. -/
theorem mem_recurseItems {f : J → J} {fs : List (String × J)} {p : String × J}
    (h : p ∈ recurseItems f fs) : p.1 = "items" ∨ p ∈ fs := by
  unfold recurseItems at h
  repeat' split at h
  all_goals first
    | exact Or.inr h
    | (rcases mem_setKey h with h1 | h1
       · exact Or.inl (by rw [h1])
       · exact Or.inr h1)

/-- Entries of `recurseProps` output. -/
theorem mem_recurseProps {f : J → J} {fs : List (String × J)} {p : String × J}
    (h : p ∈ recurseProps f fs) : p.1 = "properties" ∨ p ∈ fs := by
  unfold recurseProps at h
  repeat' split at h
  all_goals first
    | exact Or.inr h
    | (rcases mem_setKey h with h1 | h1
       · exact Or.inl (by rw [h1])
       · exact Or.inr h1)

/-- `recurseItems` with no `items` key is the identity. -/
theorem recurseItems_eq_of_none (f : J → J) (fs : List (String × J))
    (h : getKey fs "items" = none) : recurseItems f fs = fs := by
  unfold recurseItems
  rw [h]

/-- `recurseItems` skips falsy `items`. -/
theorem recurseItems_eq_of_skip (f : J → J) (fs : List (String × J)) (v : J)
    (h : getKey fs "items" = some v) (h2 : jTruthy v = false) :
    recurseItems f fs = fs := by
  unfold recurseItems
  rw [h]
  simp [h2]

/-- `recurseItems` maps over an array-shaped `items`. -/
theorem recurseItems_eq_of_arr (f : J → J) (fs : List (String × J)) (xs : List J)
    (h : getKey fs "items" = some (J.arr xs)) :
    recurseItems f fs = setKey fs "items" (J.arr (xs.map f)) := by
  unfold recurseItems
  rw [h]
  simp [jTruthy]

/-- `recurseItems` sanitizes a single truthy non-array `items`. -/
theorem recurseItems_eq_of_other (f : J → J) (fs : List (String × J)) (v : J)
    (h : getKey fs "items" = some v) (h2 : jTruthy v = true)
    (h3 : ∀ xs, v ≠ J.arr xs) :
    recurseItems f fs = setKey fs "items" (f v) := by
  unfold recurseItems
  rw [h]
  cases v with
  | arr xs => exact absurd rfl (h3 xs)
  | null => simp [jTruthy] at h2
  | bool b =>
      simp [jTruthy] at h2
      subst h2
      simp [jTruthy]
  | num n => simp [h2]
  | str s => simp [h2]
  | obj o => simp [jTruthy]

/-- Falsy values carry no banned keys. -/
theorem noBanned_of_untruthy (v : J) (h : jTruthy v = false) :
    noBannedKeys v = true := by
  cases v <;> simp_all [jTruthy, noBannedKeys]

/-- Falsy values have no subschemas. -/
theorem subschemas_of_untruthy (v : J) (h : jTruthy v = false) :
    subschemas v = [] := by
  cases v <;> simp_all [jTruthy, subschemas]

/-- The sanitizer returns an object for every non-array input. -/
theorem sanitizeF_shape (fuel : Nat) (v : J) (h : ∀ xs, v ≠ J.arr xs) :
    ∃ gs, sanitizeSchemaF fuel v = J.obj gs := by
  cases fuel with
  | zero => exact ⟨_, rfl⟩
  | succ f =>
      cases v with
      | null => exact ⟨_, rfl⟩
      | bool b => exact ⟨_, rfl⟩
      | num n => exact ⟨_, rfl⟩
      | str s => exact ⟨_, rfl⟩
      | arr xs => exact absurd rfl (h xs)
      | obj fields =>
          simp only [sanitizeSchemaF]
          split
          · unfold refReplacement
            repeat' (first | split | dsimp only)
            all_goals exact ⟨_, rfl⟩
          · exact ⟨_, rfl⟩

/-- The reason schema's one nested schema is bannedkeyword-free and
childless. -/
theorem subschemas_reasonSchema_spec :
    ∀ c ∈ subschemas reasonSchema, noBannedKeys c = true ∧ subschemas c = [] := by
  intro c hc
  have hsub : subschemas reasonSchema =
      [J.obj [("type", J.str "string"),
              ("description", J.str "Reason for calling this tool")]] := rfl
  rw [hsub] at hc
  have hc1 := List.mem_singleton.mp hc
  subst hc1
  exact ⟨rfl, rfl⟩

/-- Every nested schema of a sanitizer output is itself a sanitizer output
(at one less fuel) or a childless bannedkeyword-free leaf. -/
theorem subschemas_sanitizeF (fuel : Nat) (s : J) :
    ∀ c ∈ subschemas (sanitizeSchemaF (fuel + 1) s),
      (∃ u, c = sanitizeSchemaF fuel u) ∨ (noBannedKeys c = true ∧ subschemas c = []) := by
  cases s with
  | null => intro c hc; exact Or.inr (subschemas_reasonSchema_spec c hc)
  | bool b => intro c hc; exact Or.inr (subschemas_reasonSchema_spec c hc)
  | num n => intro c hc; exact Or.inr (subschemas_reasonSchema_spec c hc)
  | str s => intro c hc; exact Or.inr (subschemas_reasonSchema_spec c hc)
  | arr xs =>
      intro c hc
      have hs : subschemas (sanitizeSchemaF (fuel + 1) (J.arr xs)) =
          xs.map (sanitizeSchemaF fuel) := rfl
      rw [hs] at hc
      rcases List.mem_map.mp hc with ⟨u, _, hu⟩
      exact Or.inl ⟨u, hu.symm⟩
  | obj fields =>
      intro c hc
      rw [show sanitizeSchemaF (fuel + 1) (J.obj fields) =
          (if jTruthyOpt (getKey (flattenTypeArray (objFromEntries fields)) "$ref") then
            refReplacement (flattenTypeArray (objFromEntries fields))
          else
            J.obj (intersectRequired (recurseItems (sanitizeSchemaF fuel)
              (recurseProps (sanitizeSchemaF fuel) (stripBanned (flattenUnion "oneOf"
                (flattenUnion "anyOf" (mergeAllOf (flattenTypeArray
                  (objFromEntries fields)))))))))) from rfl] at hc
      split at hc
      · have hrr : subschemas (refReplacement (flattenTypeArray (objFromEntries fields))) = [] := by
          unfold refReplacement
          repeat' (first | split | dsimp only)
          all_goals rfl
        rw [hrr] at hc
        cases hc
      · set f := sanitizeSchemaF fuel with hf
        set r5 := stripBanned (flattenUnion "oneOf" (flattenUnion "anyOf"
          (mergeAllOf (flattenTypeArray (objFromEntries fields))))) with hr5
        set r6 := recurseProps f r5 with hr6
        set r7 := recurseItems f r6 with hr7
        simp only [subschemas] at hc
        rcases List.mem_append.mp hc with hp | hi
        · -- properties children
          have hfp : getKey (intersectRequired r7) "properties" = getKey r6 "properties" := by
            rw [getKey_intersectRequired_other r7 "properties" (by decide), hr7,
                getKey_recurseItems_other f r6 "properties" (by decide)]
          rw [hfp] at hp
          cases hp5 : getKey r5 "properties" with
          | none =>
              rw [hr6, recurseProps_eq_of_none f r5 hp5, hp5] at hp
              cases hp
          | some v =>
              by_cases htv : (jTruthy v && isObjLike v) = true
              · rw [hr6, recurseProps_eq_of_rec f r5 v hp5 htv, getKey_setKey_same] at hp
                rcases List.mem_map.mp hp with ⟨q, hq, hqc⟩
                have hq2 := mem_objFromEntries hq
                rcases List.mem_map.mp hq2 with ⟨kv, _, hkv⟩
                refine Or.inl ⟨kv.2, ?_⟩
                rw [← hqc, ← hkv]
              · have htv' : (jTruthy v && isObjLike v) = false := by
                  revert htv
                  cases jTruthy v && isObjLike v <;> simp
                rw [hr6, recurseProps_eq_of_skip f r5 v hp5 htv', hp5] at hp
                cases v with
                | obj o => simp [jTruthy, isObjLike] at htv'
                | arr a => simp [jTruthy, isObjLike] at htv'
                | null => cases hp
                | bool b => cases hp
                | num n => cases hp
                | str s => cases hp
        · -- items children
          have hfi : getKey (intersectRequired r7) "items" = getKey r7 "items" :=
            getKey_intersectRequired_other r7 "items" (by decide)
          rw [hfi] at hi
          cases hi6 : getKey r6 "items" with
          | none =>
              rw [hr7, recurseItems_eq_of_none f r6 hi6, hi6] at hi
              cases hi
          | some v =>
              by_cases htv : jTruthy v = true
              · cases v with
                | arr xs =>
                    rw [hr7, recurseItems_eq_of_arr f r6 xs hi6, getKey_setKey_same] at hi
                    rcases List.mem_map.mp hi with ⟨u, _, hu⟩
                    exact Or.inl ⟨u, hu.symm⟩
                | null => simp [jTruthy] at htv
                | bool b =>
                    rw [hr7, recurseItems_eq_of_other f r6 (J.bool b) hi6 htv
                        (fun xs hxs => by cases hxs), getKey_setKey_same] at hi
                    rcases sanitizeF_shape fuel (J.bool b) (fun xs hxs => by cases hxs) with ⟨gs, hgs⟩
                    rw [hf] at hi
                    rw [hgs] at hi
                    have hc1 := List.mem_singleton.mp hi
                    exact Or.inl ⟨J.bool b, by rw [hc1, ← hgs]⟩
                | num n =>
                    rw [hr7, recurseItems_eq_of_other f r6 (J.num n) hi6 htv
                        (fun xs hxs => by cases hxs), getKey_setKey_same] at hi
                    rcases sanitizeF_shape fuel (J.num n) (fun xs hxs => by cases hxs) with ⟨gs, hgs⟩
                    rw [hf] at hi
                    rw [hgs] at hi
                    have hc1 := List.mem_singleton.mp hi
                    exact Or.inl ⟨J.num n, by rw [hc1, ← hgs]⟩
                | str s =>
                    rw [hr7, recurseItems_eq_of_other f r6 (J.str s) hi6 htv
                        (fun xs hxs => by cases hxs), getKey_setKey_same] at hi
                    rcases sanitizeF_shape fuel (J.str s) (fun xs hxs => by cases hxs) with ⟨gs, hgs⟩
                    rw [hf] at hi
                    rw [hgs] at hi
                    have hc1 := List.mem_singleton.mp hi
                    exact Or.inl ⟨J.str s, by rw [hc1, ← hgs]⟩
                | obj o =>
                    rw [hr7, recurseItems_eq_of_other f r6 (J.obj o) hi6 htv
                        (fun xs hxs => by cases hxs), getKey_setKey_same] at hi
                    rcases sanitizeF_shape fuel (J.obj o) (fun xs hxs => by cases hxs) with ⟨gs, hgs⟩
                    rw [hf] at hi
                    rw [hgs] at hi
                    have hc1 := List.mem_singleton.mp hi
                    exact Or.inl ⟨J.obj o, by rw [hc1, ← hgs]⟩
              · have htv' : jTruthy v = false := by
                  revert htv
                  cases jTruthy v <;> simp
                rw [hr7, recurseItems_eq_of_skip f r6 v hi6 htv', hi6] at hi
                cases v with
                | arr xs => simp [jTruthy] at htv'
                | obj o => simp [jTruthy] at htv'
                | null =>
                    have hc1 := List.mem_singleton.mp hi
                    subst hc1
                    exact Or.inr ⟨noBanned_of_untruthy _ htv', subschemas_of_untruthy _ htv'⟩
                | bool b =>
                    have hc1 := List.mem_singleton.mp hi
                    subst hc1
                    exact Or.inr ⟨noBanned_of_untruthy _ htv', subschemas_of_untruthy _ htv'⟩
                | num n =>
                    have hc1 := List.mem_singleton.mp hi
                    subst hc1
                    exact Or.inr ⟨noBanned_of_untruthy _ htv', subschemas_of_untruthy _ htv'⟩
                | str s =>
                    have hc1 := List.mem_singleton.mp hi
                    subst hc1
                    exact Or.inr ⟨noBanned_of_untruthy _ htv', subschemas_of_untruthy _ htv'⟩

/-- The sanitizer's own output object never carries a banned key. -/
theorem noBanned_sanitizeF (fuel : Nat) (s : J) :
    noBannedKeys (sanitizeSchemaF fuel s) = true := by
  cases fuel with
  | zero => rfl
  | succ f =>
      cases s with
      | null => rfl
      | bool b => rfl
      | num n => rfl
      | str s => rfl
      | arr xs => rfl
      | obj fields =>
          rw [show sanitizeSchemaF (f + 1) (J.obj fields) =
              (if jTruthyOpt (getKey (flattenTypeArray (objFromEntries fields)) "$ref") then
                refReplacement (flattenTypeArray (objFromEntries fields))
              else
                J.obj (intersectRequired (recurseItems (sanitizeSchemaF f)
                  (recurseProps (sanitizeSchemaF f) (stripBanned (flattenUnion "oneOf"
                    (flattenUnion "anyOf" (mergeAllOf (flattenTypeArray
                      (objFromEntries fields)))))))))) from rfl]
          split
          · unfold refReplacement
            repeat' (first | split | dsimp only)
            all_goals rfl
          · have hmem : ∀ p ∈ intersectRequired (recurseItems (sanitizeSchemaF f)
                (recurseProps (sanitizeSchemaF f) (stripBanned (flattenUnion "oneOf"
                  (flattenUnion "anyOf" (mergeAllOf (flattenTypeArray
                    (objFromEntries fields)))))))),
                STRIP_KEYS.contains p.1 = false := by
              intro p hp
              rcases mem_intersectRequired hp with h1 | h1
              · rw [h1]; decide
              rcases mem_recurseItems h1 with h2 | h2
              · rw [h2]; decide
              rcases mem_recurseProps h2 with h3 | h3
              · rw [h3]; decide
              exact (mem_stripBanned h3).2
            simp only [noBannedKeys]
            rw [List.all_eq_true]
            intro p hp
            rw [hmem p hp]
            rfl

/-- Every schema reachable from the reason schema is bannedkeyword-free. -/
theorem reach_reasonSchema (t : J)
    (h : Relation.ReflTransGen (fun a b => a ∈ subschemas b) t reasonSchema) :
    noBannedKeys t = true := by
  rcases Relation.ReflTransGen.cases_tail h with heq | ⟨c, hreach, hstep⟩
  · rw [← heq]
    rfl
  · rcases subschemas_reasonSchema_spec c hstep with ⟨hnb, hsub⟩
    rcases Relation.ReflTransGen.cases_tail hreach with heq2 | ⟨d, _, hstep2⟩
    · rw [heq2] at hnb
      exact hnb
    · rw [hsub] at hstep2
      cases hstep2

/-- Every schema reachable from a fuelled sanitizer output is
bannedkeyword-free. -/
theorem reach_sanitizeF : ∀ (fuel : Nat) (s t : J),
    Relation.ReflTransGen (fun a b => a ∈ subschemas b) t (sanitizeSchemaF fuel s) →
    noBannedKeys t = true := by
  intro fuel
  induction fuel with
  | zero => intro s t h; exact reach_reasonSchema t h
  | succ f ih =>
      intro s t h
      rcases Relation.ReflTransGen.cases_tail h with heq | ⟨c, hreach, hstep⟩
      · rw [← heq]
        exact noBanned_sanitizeF (f + 1) s
      · rcases subschemas_sanitizeF f s c hstep with ⟨u, hu⟩ | ⟨hnb, hsub⟩
        · exact ih u t (hu ▸ hreach)
        · rcases Relation.ReflTransGen.cases_tail hreach with heq2 | ⟨d, _, hstep2⟩
          · rw [heq2] at hnb
            exact hnb
          · rw [hsub] at hstep2
            cases hstep2

/-- C8 counterexample: one sanitizer pass over a schema whose `anyOf`
branch holds a type array leaves the type array in place (the union
branch is copied verbatim AFTER the type-array flattening step), and a
second pass flattens it — so `sanitize` is not idempotent. -/
theorem sanitize_not_idempotent :
    sanitizeSchema unionTypeSchema = J.obj [("type", J.arr [J.str "string", J.str "null"])] ∧
    sanitizeSchema (sanitizeSchema unionTypeSchema) = J.obj [("type", J.str "string")] ∧
    sanitizeSchema (sanitizeSchema unionTypeSchema) ≠ sanitizeSchema unionTypeSchema := by
  have h1 : sanitizeSchema unionTypeSchema =
      J.obj [("type", J.arr [J.str "string", J.str "null"])] := by
    show sanitizeSchemaF (jSize unionTypeSchema) unionTypeSchema = _
    rw [show jSize unionTypeSchema = 11 from by
      simp [unionTypeSchema, jSize, jSizeList, jSizeFields]]
    rfl
  have h2 : sanitizeSchema (J.obj [("type", J.arr [J.str "string", J.str "null"])]) =
      J.obj [("type", J.str "string")] := by
    show sanitizeSchemaF (jSize (J.obj [("type", J.arr [J.str "string", J.str "null"])])) _ = _
    rw [show jSize (J.obj [("type", J.arr [J.str "string", J.str "null"])]) = 7 from by
      simp [jSize, jSizeList, jSizeFields]]
    rfl
  refine ⟨h1, ?_, ?_⟩
  · rw [h1]
    exact h2
  · rw [h1, h2]
    intro hcontra
    exact absurd (congrArg (fun v => jKind (jGet v "type")) hcontra) (by decide)

/-- C8 (amended): the sanitizer is NOT idempotent (a type array inside a
union branch survives exactly one pass; see the counterexample), but its
output never contains a disallowed keyword at any nesting depth reachable
through `properties`, `items`, or schema-array membership. -/
theorem sanitize_strips_banned_keywords (s t : J)
    (h : Relation.ReflTransGen (fun a b => a ∈ subschemas b) t (sanitizeSchema s)) :
    noBannedKeys t = true :=
  reach_sanitizeF (jSize s) s t h

/-- Witness: the sanitized `pattern`-carrying schema is itself
bannedkeyword-free. -/
theorem sanitize_strips_banned_keywords_witness :
    noBannedKeys (sanitizeSchema patSchema) = true :=
  sanitize_strips_banned_keywords patSchema (sanitizeSchema patSchema)
    Relation.ReflTransGen.refl
